import Mathlib

/-
Verification of the deterministic lab-analysis core of MedWard (labx).

Shallow embedding conventions:
  * Python floats are modelled as exact rationals (ℚ); every arithmetic
    operation used by the embedded code (+, -, *, /, abs, min, comparisons)
    is exact on the values exercised here.
  * Python dates are modelled as integers (`date.isoformat()` ordering and
    equality coincide with integer ordering of the day index).
  * Python dicts used as accumulators are modelled as insertion-ordered
    association lists: updating an existing key keeps its position, a new
    key is appended at the end, exactly like CPython dict semantics.
  * Python `sorted` is a stable ascending sort; it is modelled by a stable
    insertion sort `sortOn` below (stability and sortedness proved).
  * `round(x, 2)` is modelled with Mathlib's `round` on ℚ scaled by 100
    (Python uses round-half-even; the two agree except at exact half-ties,
    which no settled statement depends on).
-/

namespace Labx

-- ═══════════════════════════════════════════════════════════════
-- Domain models (labx/domain/models.py)
-- ═══════════════════════════════════════════════════════════════

/-- Flag enum from labx/domain/models.py. -/
inductive Flag where
  | normal
  | low
  | high
  | critical_low
  | critical_high
deriving DecidableEq, Repr

/-- TrendDirection enum from labx/domain/models.py. -/
inductive TrendDirection where
  | improving
  | worsening
  | stable
  | fluctuating
deriving DecidableEq, Repr

/-- ReferenceRange model (low/high bounds optional, raw text preserved). -/
structure ReferenceRange where
  low : Option ℚ := none
  high : Option ℚ := none
  raw_text : String := ""
deriving DecidableEq, Repr

/-- `ReferenceRange.is_bounded` property: some bound is present. -/
def ReferenceRange.is_bounded (r : ReferenceRange) : Bool :=
  r.low.isSome || r.high.isSome

/-- Observation model: a single measured value on a specific date. -/
structure Observation where
  date : Int
  value : ℚ
  raw_value : String := ""
  flag_extracted : Option Flag := none
  flag_computed : Option Flag := none
  source_image_id : String := ""
deriving DecidableEq, Repr

/-- LabAnalyte model: one lab test with its observations.
(The audit-only raw fields are kept; patient metadata lives on the report.) -/
structure LabAnalyte where
  raw_name : String := ""
  raw_unit : String := ""
  raw_range_text : String := ""
  analyte_key : String := ""
  display_name : String := ""
  unit : String := ""
  unit_canonical : String := ""
  ref_range : ReferenceRange := {}
  observations : List Observation := []
deriving DecidableEq, Repr

/-- LabPanel model: a logical grouping of analytes. -/
structure LabPanel where
  panel_name : String := ""
  results : List LabAnalyte := []
deriving DecidableEq, Repr

/-- LabReport model: extraction result from a single image.
(`captured_at`, patient metadata and `raw_json` are omitted: no settled
claim reads them and they do not influence any embedded operation.) -/
structure LabReport where
  source_image_id : String := ""
  panels : List LabPanel := []
deriving DecidableEq, Repr

/-- LabTrend model: trend computed for one analyte. -/
structure LabTrend where
  analyte_key : String
  display_name : String := ""
  direction : TrendDirection := TrendDirection.stable
  pct_change : ℚ := 0
  latest_value : Option ℚ := none
  latest_flag : Option Flag := none
  severity_score : ℚ := 0
  observations : List Observation := []
deriving DecidableEq, Repr

-- ═══════════════════════════════════════════════════════════════
-- Constants (labx/config/constants.py)
-- ═══════════════════════════════════════════════════════════════

/-- Default critical multiplier: a value more than 50 % of the span beyond
the reference boundary is critical. -/
def DEFAULT_CRITICAL_MULTIPLIER : ℚ := 0.50

/-- Per-analyte critical-multiplier overrides (analyte_key → multiplier),
verbatim from labx/config/constants.py. -/
def CRITICAL_MULTIPLIER_OVERRIDES : List (String × ℚ) :=
  [ ("potassium", 0.20),
    ("sodium", 0.10),
    ("glucose", 0.50),
    ("calcium", 0.25),
    ("magnesium", 0.30),
    ("phosphate", 0.30),
    ("troponin_i", 0.0),
    ("troponin_t", 0.0),
    ("inr", 0.50) ]

/-- First-match association-list lookup (model of Python dict lookup; all
dict literals embedded in this file have pairwise distinct keys). -/
def alookup {κ β : Type} [DecidableEq κ] (k : κ) : List (κ × β) → Option β
  | [] => none
  | e :: rest => if e.1 = k then some e.2 else alookup k rest

-- ═══════════════════════════════════════════════════════════════
-- Flag engine (labx/domain/flags.py)
-- ═══════════════════════════════════════════════════════════════

/-- Python truthiness fallback `a or b` for an optional float: `None` and
`0.0` are falsy, any other float is truthy. -/
def pyOrFloat (a : Option ℚ) (b : ℚ) : ℚ :=
  match a with
  | none => b
  | some x => if x = 0 then b else x

/-- Multiplier resolution inside `compute_flag`:
`CRITICAL_MULTIPLIER_OVERRIDES.get(analyte_key, DEFAULT_CRITICAL_MULTIPLIER)`. -/
def criticalMultiplier (analyte_key : String) : ℚ :=
  (alookup analyte_key CRITICAL_MULTIPLIER_OVERRIDES).getD DEFAULT_CRITICAL_MULTIPLIER

/-- `compute_flag` from labx/domain/flags.py: classify a value against a
parsed reference range into normal/low/high/critical_low/critical_high. -/
def compute_flag (value : ℚ) (ref : ReferenceRange) (analyte_key : String := "") : Flag :=
  if ref.is_bounded = false then Flag.normal
  else
    let multiplier := criticalMultiplier analyte_key
    -- High side: `if ref.high is not None and value > ref.high`
    let lowSide : Flag :=
      -- Low side: `if ref.low is not None and value < ref.low`
      match ref.low with
      | some lo =>
        if value < lo then
          let span := pyOrFloat ref.high lo - lo
          let threshold := if span > 0 then lo - span * multiplier else lo
          if value < threshold then Flag.critical_low else Flag.low
        else Flag.normal
      | none => Flag.normal
    match ref.high with
    | some hi =>
      if value > hi then
        let span := hi - pyOrFloat ref.low 0
        let threshold := if span > 0 then hi + span * multiplier else hi
        if value > threshold then Flag.critical_high else Flag.high
      else lowSide
    | none => lowSide

-- ═══════════════════════════════════════════════════════════════
-- Stable sort (model of Python's `sorted`)
-- ═══════════════════════════════════════════════════════════════

/-- Stable insertion: `x` is placed after every already-present element `y`
with `pre y x` (for an ascending key sort, `pre y x` is "key y ≤ key x", so
`x` goes after equal keys — Python's stability). -/
def insertPre {α : Type} (pre : α → α → Bool) (x : α) : List α → List α
  | [] => [x]
  | y :: ys => if pre y x then y :: insertPre pre x ys else x :: y :: ys

/-- Stable sort modelling Python `sorted(l, key=...)`: elements are inserted
left to right, each after all previously inserted elements it ties with. -/
def sortOn {α : Type} (pre : α → α → Bool) (l : List α) : List α :=
  l.foldl (fun acc x => insertPre pre x acc) []

-- ═══════════════════════════════════════════════════════════════
-- Unit normalizer (labx/domain/units.py)
-- ═══════════════════════════════════════════════════════════════

/-- Characters matched by Python's `\s` and removed by `str.strip()`. -/
def isPySpace (c : Char) : Bool :=
  c = ' ' || c = '\t' || c = '\n' || c = '\r' || c = '\x0b' || c = '\x0c'

/-- Python `str.strip()`: remove leading and trailing whitespace. -/
def pyStrip (s : String) : String :=
  ⟨((s.data.dropWhile isPySpace).reverse.dropWhile isPySpace).reverse⟩

/-- Alias → canonical unit mapping, verbatim from labx/domain/units.py. -/
def _UNIT_ALIASES : List (String × String) :=
  [ ("ml", "mL"), ("dl", "dL"), ("l", "L"),
    ("mmol/l", "mmol/L"), ("umol/l", "umol/L"), ("µmol/l", "umol/L"),
    ("nmol/l", "nmol/L"), ("meq/l", "mEq/L"), ("mg/dl", "mg/dL"),
    ("mg/l", "mg/L"), ("g/dl", "g/dL"), ("g/l", "g/L"),
    ("ng/ml", "ng/mL"), ("ng/dl", "ng/dL"), ("pg/ml", "pg/mL"),
    ("ug/ml", "ug/mL"), ("µg/ml", "ug/mL"), ("iu/l", "IU/L"),
    ("u/l", "U/L"), ("iu/ml", "IU/mL"),
    ("x10^9/l", "x10^9/L"), ("x10^12/l", "x10^12/L"),
    ("x10e9/l", "x10^9/L"), ("x10e12/l", "x10^12/L"),
    ("10^9/l", "x10^9/L"), ("10^12/l", "x10^12/L"),
    ("thou/ul", "x10^3/uL"), ("mil/ul", "x10^6/uL"), ("k/ul", "x10^3/uL"),
    ("%", "%"), ("percent", "%"),
    ("sec", "s"), ("seconds", "s"), ("s", "s"),
    ("fl", "fL"), ("pg", "pg"), ("mm/hr", "mm/hr"), ("mm/h", "mm/hr"),
    ("ratio", "ratio") ]

/-- Conversion factors `(from_unit, to_unit) → multiplier`, verbatim from
labx/domain/units.py. -/
def _CONVERSIONS : List ((String × String) × ℚ) :=
  [ (("g/dL", "g/L"), 10.0),
    (("g/L", "g/dL"), 0.1),
    (("mg/dL", "mg/L"), 10.0),
    (("mg/L", "mg/dL"), 0.1),
    (("umol/L", "mg/dL"), 0.0113),
    (("ng/mL", "ug/L"), 1.0),
    (("ug/L", "ng/mL"), 1.0),
    (("mEq/L", "mmol/L"), 1.0),
    (("mmol/L", "mEq/L"), 1.0) ]

/-- `normalize_unit` from labx/domain/units.py: strip all whitespace
(`re.sub(r"\s+", "", raw.strip())`), lowercase, look up in the alias table;
on a miss return the original string with surrounding whitespace stripped. -/
def normalize_unit (raw : String) : String :=
  let cleaned : String := ⟨(raw.data.filter (fun c => !isPySpace c)).map Char.toLower⟩
  (alookup cleaned _UNIT_ALIASES).getD (pyStrip raw)

/-- `convert_value` from labx/domain/units.py: normalize both units; if
equal return the value unchanged; else apply the directed table factor; on a
table miss return `none`. -/
def convert_value (value : ℚ) (from_unit to_unit : String) : Option ℚ :=
  let f := normalize_unit from_unit
  let t := normalize_unit to_unit
  if f = t then some value
  else
    match alookup (f, t) _CONVERSIONS with
    | none => none
    | some factor => some (value * factor)

-- ═══════════════════════════════════════════════════════════════
-- Trend engine (labx/domain/trends.py)
-- ═══════════════════════════════════════════════════════════════

/-- Python `round(x, 2)` (see the header note on half-tie rounding). -/
def round2 (q : ℚ) : ℚ := (round (q * 100) : ℚ) / 100

/-- `_pct_change` from labx/domain/trends.py. -/
def _pct_change (first last : ℚ) : ℚ :=
  if first = 0 then (if last = 0 then 0 else 100)
  else ((last - first) / |first|) * 100

/-- The consecutive value deltas
`[obs[i].value - obs[i-1].value for i in range(1, len(obs))]` used by both
`_slope_sign` and `_is_fluctuating`. -/
def _pairDiffs : List Observation → List ℚ
  | a :: b :: rest => (b.value - a.value) :: _pairDiffs (b :: rest)
  | _ => []

/-- `_slope_sign` from labx/domain/trends.py: +1, -1 or 0 from the majority
sign of the consecutive deltas. -/
def _slope_sign (obs : List Observation) : Int :=
  if obs.length < 2 then 0
  else
    let diffs := _pairDiffs obs
    let positive := (diffs.filter (fun d => decide (d > 0))).length
    let negative := (diffs.filter (fun d => decide (d < 0))).length
    if positive > negative then 1
    else if negative > positive then -1
    else 0

/-- Sign classification of a delta inside `_is_fluctuating`. -/
def signOf (d : ℚ) : Int := if d > 0 then 1 else if d < 0 then -1 else 0

/-- One iteration of the `_is_fluctuating` loop: the state is
(reversals so far, previous nonzero sign or 0). -/
def _fluctStep (st : Nat × Int) (d : ℚ) : Nat × Int :=
  let sign := signOf d
  ( if sign ≠ 0 ∧ st.2 ≠ 0 ∧ sign ≠ st.2 then st.1 + 1 else st.1,
    if sign ≠ 0 then sign else st.2 )

/-- `_is_fluctuating` from labx/domain/trends.py: at least 3 observations
and at least 2 sign reversals among the nonzero deltas. -/
def _is_fluctuating (obs : List Observation) : Bool :=
  if obs.length < 3 then false
  else decide (((_pairDiffs obs).foldl _fluctStep (0, 0)).1 ≥ 2)

/-- `latest.flag_computed or latest.flag_extracted or Flag.normal`: every
`Flag` value is a truthy non-empty string enum in Python, so the chain is a
plain `Option` fallback. -/
def pyOrFlag (o : Observation) : Flag :=
  match o.flag_computed with
  | some f => f
  | none =>
    match o.flag_extracted with
    | some f => f
    | none => Flag.normal

/-- `_determine_direction` from labx/domain/trends.py.  The slope = 0 cases
and the `latest_flag == normal` case all reach the trailing
`return TrendDirection.stable`. -/
def _determine_direction (obs : List Observation) (latest_flag : Flag) : TrendDirection :=
  if obs.length < 2 then TrendDirection.stable
  else if _is_fluctuating obs then TrendDirection.fluctuating
  else
    let slope := _slope_sign obs
    if latest_flag = Flag.high ∨ latest_flag = Flag.critical_high then
      if slope < 0 then TrendDirection.improving
      else if slope > 0 then TrendDirection.worsening
      else TrendDirection.stable
    else if latest_flag = Flag.low ∨ latest_flag = Flag.critical_low then
      if slope > 0 then TrendDirection.improving
      else if slope < 0 then TrendDirection.worsening
      else TrendDirection.stable
    else TrendDirection.stable

/-- Ascending stable comparison on observation dates
(`sorted(analyte.observations, key=lambda o: o.date)`). -/
def obsDatePre : Observation → Observation → Bool :=
  fun a b => decide (a.date ≤ b.date)

/-- `compute_trend` from labx/domain/trends.py. -/
def compute_trend (analyte : LabAnalyte) : LabTrend :=
  match sortOn obsDatePre analyte.observations with
  | [] => { analyte_key := analyte.analyte_key, display_name := analyte.display_name }
  | o :: rest =>
    let obs := o :: rest
    let latest := obs.getLast (List.cons_ne_nil o rest)
    let earliest := o
    let pct := _pct_change earliest.value latest.value
    let latest_flag := pyOrFlag latest
    let direction := _determine_direction obs latest_flag
    { analyte_key := analyte.analyte_key
      display_name := analyte.display_name
      direction := direction
      pct_change := round2 pct
      latest_value := some latest.value
      latest_flag := some latest_flag
      observations := obs }

-- ═══════════════════════════════════════════════════════════════
-- Severity scorer (labx/domain/severity.py)
-- ═══════════════════════════════════════════════════════════════

/-- `_FLAG_WEIGHT` from labx/domain/severity.py (the dict covers every
flag, so `.get`'s 0.0 default is unreachable for present flags). -/
def _FLAG_WEIGHT : Flag → ℚ
  | Flag.critical_high => 100.0
  | Flag.critical_low => 100.0
  | Flag.high => 50.0
  | Flag.low => 50.0
  | Flag.normal => 0.0

/-- `_DIRECTION_WEIGHT` from labx/domain/severity.py (total). -/
def _DIRECTION_WEIGHT : TrendDirection → ℚ
  | TrendDirection.worsening => 30.0
  | TrendDirection.fluctuating => 15.0
  | TrendDirection.stable => 0.0
  | TrendDirection.improving => -10.0

/-- `compute_severity` from labx/domain/severity.py:
flag weight + direction weight + capped magnitude weight, rounded to two
decimals (`trend.latest_flag or Flag.normal` treats `None` as normal). -/
def compute_severity (trend : LabTrend) : ℚ :=
  let flag_w := _FLAG_WEIGHT (trend.latest_flag.getD Flag.normal)
  let dir_w := _DIRECTION_WEIGHT trend.direction
  let mag_w := min |trend.pct_change| 200.0 * 0.1
  round2 (flag_w + dir_w + mag_w)

/-- `sort_trends_by_severity` from labx/domain/severity.py: overwrite every
trend's `severity_score` with `compute_severity`, then return the trends
sorted by score descending (`sorted(..., reverse=True)` flips comparisons
but keeps Python's stability: tied scores keep input order). -/
def sort_trends_by_severity (trends : List LabTrend) : List LabTrend :=
  let updated := trends.map (fun t => { t with severity_score := compute_severity t })
  sortOn (fun a b => decide (b.severity_score ≤ a.severity_score)) updated

-- ═══════════════════════════════════════════════════════════════
-- Reference-range parser (labx/domain/reference.py)
-- ═══════════════════════════════════════════════════════════════

/-- List-level `str.strip()` (same whitespace class as `pyStrip`). -/
def stripL (cs : List Char) : List Char :=
  ((cs.dropWhile isPySpace).reverse.dropWhile isPySpace).reverse

/-- `_QUALITATIVE_RE.match(text)`: anchored case-insensitive match of
`negative | non[- ]?reactive | not detected | absent | normal` (the input is
already stripped, so the `$` newline nuance cannot arise). -/
def isQualitative (t : String) : Bool :=
  let l : String := ⟨t.data.map Char.toLower⟩
  l = "negative" || l = "non-reactive" || l = "non reactive" || l = "nonreactive"
    || l = "not detected" || l = "absent" || l = "normal"

/-- Value of a digit run (most significant first). -/
def digitsToNat (ds : List Char) : Nat :=
  ds.foldl (fun n c => n * 10 + (c.toNat - 48)) 0

/-- Greedy match of the `_NUM` pattern `[+-]?\d+(?:\.\d+)?` at the start of
the input; returns the parsed value and the rest.  Maximal munch coincides
with the regex here: `\d+` can stop only at a non-digit, and no following
pattern element can consume a digit, so backtracking never changes the
outcome. -/
def parseNumber (cs : List Char) : Option (ℚ × List Char) :=
  let signAndRest : ℚ × List Char :=
    match cs with
    | '+' :: rest => (1, rest)
    | '-' :: rest => (-1, rest)
    | _ => (1, cs)
  let sign := signAndRest.1
  let cs1 := signAndRest.2
  let ds := cs1.takeWhile Char.isDigit
  if ds.isEmpty then none
  else
    let cs2 := cs1.drop ds.length
    let intPart : ℚ := (digitsToNat ds : ℚ)
    match cs2 with
    | '.' :: cs3 =>
      let fs := cs3.takeWhile Char.isDigit
      if fs.isEmpty then some (sign * intPart, cs2)
      else
        some (sign * (intPart + (digitsToNat fs : ℚ) / (10 : ℚ) ^ fs.length),
          cs3.drop fs.length)
    | _ => some (sign * intPart, cs2)

/-- Skip `\s*`. -/
def skipWs (cs : List Char) : List Char := cs.dropWhile isPySpace

/-- Match the range separator `(?:[-–—]|to)` at the start of the input. -/
def matchSep : List Char → Option (List Char)
  | '-' :: rest => some rest
  | '–' :: rest => some rest
  | '—' :: rest => some rest
  | 't' :: 'o' :: rest => some rest
  | _ => none

/-- Attempt `_RANGE_RE` at the start of the input:
`(?P<lo>NUM)\s*(?:[-–—]|to)\s*(?P<hi>NUM)`. -/
def matchRangeAt (cs : List Char) : Option (ℚ × ℚ) :=
  (parseNumber cs).bind fun lor =>
    (matchSep (skipWs lor.2)).bind fun r2 =>
      (parseNumber (skipWs r2)).map fun hir => (lor.1, hir.1)

/-- `_RANGE_RE.search`: leftmost match wins. -/
def searchRange : List Char → Option (ℚ × ℚ)
  | [] => none
  | c :: rest =>
    match matchRangeAt (c :: rest) with
    | some r => some r
    | none => searchRange rest

/-- Attempt `_UPPER_ONLY_RE` at the start of the input:
`(?:[<≤]\s*=?\s*)(?P<hi>NUM)`.  (If the optional `=` is present but no
number follows, omitting it cannot help either, since the number would then
have to start at the `=`.) -/
def matchUpperAt : List Char → Option ℚ
  | c :: rest =>
    if c = '<' || c = '≤' then
      let r1 := skipWs rest
      let r2 := match r1 with
        | '=' :: r => skipWs r
        | _ => r1
      (parseNumber r2).map Prod.fst
    else none
  | [] => none

/-- `_UPPER_ONLY_RE.search`: leftmost match wins. -/
def searchUpper : List Char → Option ℚ
  | [] => none
  | c :: rest =>
    match matchUpperAt (c :: rest) with
    | some hi => some hi
    | none => searchUpper rest

/-- Attempt `_LOWER_ONLY_RE` at the start of the input:
`(?:[>≥]\s*=?\s*)(?P<lo>NUM)`. -/
def matchLowerAt : List Char → Option ℚ
  | c :: rest =>
    if c = '>' || c = '≥' then
      let r1 := skipWs rest
      let r2 := match r1 with
        | '=' :: r => skipWs r
        | _ => r1
      (parseNumber r2).map Prod.fst
    else none
  | [] => none

/-- `_LOWER_ONLY_RE.search`: leftmost match wins. -/
def searchLower : List Char → Option ℚ
  | [] => none
  | c :: rest =>
    match matchLowerAt (c :: rest) with
    | some lo => some lo
    | none => searchLower rest

/-- Multi-population handling: if the text contains `;`, keep only the first
segment (`text.split(";")[0].strip()`); if that segment contains `:`, keep
only the part after the first `:` (`text.split(":", 1)[1].strip()`). -/
def _segment (t : List Char) : List Char :=
  if t.contains ';' then
    let seg := stripL (t.takeWhile (fun c => c ≠ ';'))
    if seg.contains ':' then stripL ((seg.dropWhile (fun c => c ≠ ':')).drop 1)
    else seg
  else t

/-- `parse_reference_range` from labx/domain/reference.py.  (Python's
`float(...)` on the matched decimal literal is modelled by the exact
rational value of the literal.) -/
def parse_reference_range (raw : String) : ReferenceRange :=
  let text := pyStrip raw
  if text = "" then { raw_text := raw }
  else if isQualitative text then { raw_text := raw }
  else
    let t := _segment text.data
    match searchRange t with
    | some lohi => { low := some lohi.1, high := some lohi.2, raw_text := raw }
    | none =>
      match searchUpper t with
      | some hi => { high := some hi, raw_text := raw }
      | none =>
        match searchLower t with
        | some lo => { low := some lo, raw_text := raw }
        | none => { raw_text := raw }

-- ═══════════════════════════════════════════════════════════════
-- Image ingestion (labx/pipeline/image_io.py)
-- ═══════════════════════════════════════════════════════════════

/-- Error raised when an image fails validation. -/
structure ImageValidationError where
  msg : String
deriving DecidableEq, Repr

/-- An image ready for the vision API (contents irrelevant to the claims). -/
structure PreparedImage where
  image_id : String := ""
  media_type : String := ""
  base64_data : String := ""
  file_name : String := ""
deriving DecidableEq, Repr

/-- `load_images` from labx/pipeline/image_io.py.  The per-file `load_image`
performs file-system reads (existence, size, MIME sniffing), so it is
abstracted as the `loadOne` parameter; the batch validation checks embedded
here run before any file is touched, exactly as in the source. -/
def load_images (loadOne : String → Except ImageValidationError PreparedImage)
    (paths : List String) (max_images : Nat := 10) :
    Except ImageValidationError (List PreparedImage) :=
  if paths.length > max_images then
    Except.error
      ⟨"Too many images (" ++ toString paths.length ++ "); max allowed is "
        ++ toString max_images⟩
  else if paths = [] then
    Except.error ⟨"No images provided"⟩
  else
    paths.mapM loadOne

/-- A loader stand-in used only to instantiate `load_images` in witnesses
(never reached: the validation errors fire first). -/
def dummyLoader : String → Except ImageValidationError PreparedImage :=
  fun _ => Except.error ⟨"unused"⟩

-- ═══════════════════════════════════════════════════════════════
-- Merge engine (labx/pipeline/merge.py)
-- ═══════════════════════════════════════════════════════════════

/-- Python `f"{x:.4f}"` on a float: fixed four decimal places.  (Python ties
round half-to-even at the 5th decimal; claims only use the signature as a
deterministic function of the parsed range, so the tie mode is immaterial.) -/
def format4 (q : ℚ) : String :=
  let scaled : Int := round (q * 10000)
  let sign := if scaled < 0 then "-" else ""
  let n := scaled.natAbs
  let fpStr := toString (n % 10000)
  let pad : String := ⟨List.replicate (4 - fpStr.length) '0'⟩
  sign ++ toString (n / 10000) ++ "." ++ pad ++ fpStr

/-- `_range_signature` from labx/pipeline/merge.py: low and high formatted
to 4 decimal places or the sentinel "None", joined by "|". -/
def _range_signature (ref : ReferenceRange) : String :=
  (match ref.low with
    | some lo => format4 lo
    | none => "None") ++ "|" ++
  (match ref.high with
    | some hi => format4 hi
    | none => "None")

/-- `_obs_key` from labx/pipeline/merge.py: Python builds the string
`f"{obs.date.isoformat()}|{obs.value}"`, an injective encoding of the
(date, value) pair; the embedding uses the pair itself. -/
def _obs_key (obs : Observation) : Int × ℚ := (obs.date, obs.value)

/-- `_merge_key` from labx/pipeline/merge.py: composite key
`f"{analyte_key}|{unit_canonical}|{range_signature}"`. -/
def _merge_key (analyte : LabAnalyte) : String :=
  analyte.analyte_key ++ "|" ++ analyte.unit_canonical ++ "|"
    ++ _range_signature analyte.ref_range

/-- The merge accumulator value: analyte template plus the per-key
observation de-duplication dict. -/
abbrev MEntry : Type := LabAnalyte × List ((Int × ℚ) × Observation)

/-- The merge accumulator `merged : dict[str, (LabAnalyte, dict)]` as an
insertion-ordered association list. -/
abbrev MState : Type := List (String × MEntry)

/-- CPython dict store `m[k] = v`: replace in place if the key is present,
else append at the end. -/
def upsert {κ β : Type} [DecidableEq κ] (k : κ) (v : β) : List (κ × β) → List (κ × β)
  | [] => [(k, v)]
  | e :: rest => if e.1 = k then (k, v) :: rest else e :: upsert k v rest

/-- In-place update of the value stored at a present key (models mutating
the tuple member fetched from the dict). -/
def updateAt {κ β : Type} [DecidableEq κ] (k : κ) (f : β → β) : List (κ × β) → List (κ × β)
  | [] => []
  | e :: rest => if e.1 = k then (e.1, f e.2) :: rest else e :: updateAt k f rest

/-- `obs.source_image_id = report.source_image_id` tagging. -/
def tagObs (sid : String) (o : Observation) : Observation :=
  { o with source_image_id := sid }

/-- The per-observation body of the merge loop: tag the observation and
store it in the key's de-duplication dict under `_obs_key` (last write
wins). -/
def processObs (key : String) (sid : String) (acc : MState) (o : Observation) : MState :=
  let tagged := tagObs sid o
  updateAt key (fun e => (e.1, upsert (_obs_key tagged) tagged e.2)) acc

/-- The per-analyte body of the merge loop: ensure a template entry exists
for the analyte's merge key (cloning the analyte without observations),
then fold its observations into the key's de-duplication dict. -/
def processAnalyte (sid : String) (acc : MState) (analyte : LabAnalyte) : MState :=
  let key := _merge_key analyte
  let acc1 :=
    match alookup key acc with
    | none =>
      upsert key ({ analyte with observations := [] },
        ([] : List ((Int × ℚ) × Observation))) acc
    | some _ => acc
  analyte.observations.foldl (processObs key sid) acc1

/-- Final assembly of one accumulator entry: the stored template with the
de-duplicated observations sorted by date ascending. -/
def finalizeEntry (e : String × MEntry) : LabAnalyte :=
  { e.2.1 with observations := sortOn obsDatePre (e.2.2.map Prod.snd) }

/-- `merge_reports` from labx/pipeline/merge.py: fold every analyte of
every panel of every report into the keyed accumulator, then assemble the
flat analyte list in first-seen key order (dict value order). -/
def merge_reports (reports : List LabReport) : List LabAnalyte :=
  let merged : MState := reports.foldl (fun acc report =>
      report.panels.foldl (fun acc panel =>
          panel.results.foldl (fun acc analyte =>
              processAnalyte report.source_image_id acc analyte) acc) acc) []
  merged.map finalizeEntry

/-- Total observation count across merged analytes (the quantity the merge
idempotence claim compares). -/
def totalObservations (analytes : List LabAnalyte) : Nat :=
  (analytes.map (fun a => a.observations.length)).sum

/-- All analytes of a report across its panels. -/
def reportAnalytes (r : LabReport) : List LabAnalyte :=
  r.panels.flatMap (fun p => p.results)

/-- The (source_image_id, analyte) traversal stream of the merge loop. -/
def flatAnalytes (reports : List LabReport) : List (String × LabAnalyte) :=
  reports.flatMap (fun r =>
    r.panels.flatMap (fun p => p.results.map (fun a => (r.source_image_id, a))))

/-- The merge accumulator as a single fold over the traversal stream. -/
def mergeState (reports : List LabReport) : MState :=
  (flatAnalytes reports).foldl (fun acc x => processAnalyte x.1 acc x.2) []

/-- Left-biased option choice (`a if a is not None else b`). -/
def oOr {α : Type} (a b : Option α) : Option α :=
  match a with
  | some x => some x
  | none => b

/-- Last element of a list, if any. -/
def lastOpt {α : Type} : List α → Option α
  | [] => none
  | a :: l => oOr (lastOpt l) (some a)

/-- The observation stored in the accumulator under merge key `k` and
observation key `ok`. -/
def alookupObs (k : String) (ok : Int × ℚ) (s : MState) : Option Observation :=
  match alookup k s with
  | some e => alookup ok e.2
  | none => none

/-- The tagged observations one traversal element writes under `(k, ok)`. -/
def blockWriters (k : String) (ok : Int × ℚ) (x : String × LabAnalyte) : List Observation :=
  if _merge_key x.2 = k then
    (x.2.observations.map (tagObs x.1)).filter (fun o => decide (_obs_key o = ok))
  else []

/-- All tagged observations a traversal stream writes under `(k, ok)`, in
traversal order. -/
def writers (k : String) (ok : Int × ℚ) (l : List (String × LabAnalyte)) : List Observation :=
  l.flatMap (blockWriters k ok)

/-- Keys of an association list, in order. -/
def akeys {κ β : Type} (m : List (κ × β)) : List κ := m.map Prod.fst

/-- All (merge key, observation key) pairs present in the accumulator. -/
def statePairs (s : MState) : List (String × (Int × ℚ)) :=
  s.flatMap (fun e => (akeys e.2.2).map (fun ok => (e.1, ok)))

/-- Well-formedness of a per-key observation dict: distinct keys, and every
entry is stored under the `_obs_key` of its own observation. -/
def GoodInner (od : List ((Int × ℚ) × Observation)) : Prop :=
  (akeys od).Nodup ∧ ∀ e ∈ od, _obs_key e.2 = e.1

/-- Well-formedness of the merge accumulator: distinct merge keys, every
template stored under its own merge key, and well-formed inner dicts. -/
def GoodState (s : MState) : Prop :=
  (akeys s).Nodup ∧ ∀ e ∈ s, _merge_key e.2.1 = e.1 ∧ GoodInner e.2.2

-- ═══════════════════════════════════════════════════════════════
-- Concrete data used only to instantiate witnesses
-- ═══════════════════════════════════════════════════════════════

/-- A high-flagged observation (day 1, value 150). -/
def obsDay1High150 : Observation :=
  { date := 1, value := 150, flag_computed := some Flag.high }

/-- A high-flagged observation (day 2, value 148). -/
def obsDay2High148 : Observation :=
  { date := 2, value := 148, flag_computed := some Flag.high }

/-- A high-flagged observation (day 1, value 148). -/
def obsDay1High148 : Observation :=
  { date := 1, value := 148, flag_computed := some Flag.high }

/-- A high-flagged observation (day 2, value 150). -/
def obsDay2High150 : Observation :=
  { date := 2, value := 150, flag_computed := some Flag.high }

/-- A strictly decreasing high-flagged sodium series. -/
def trendDecAnalyte : LabAnalyte :=
  { analyte_key := "sodium"
    observations := [obsDay1High150, obsDay2High148] }

/-- A strictly increasing high-flagged sodium series. -/
def trendIncAnalyte : LabAnalyte :=
  { analyte_key := "sodium"
    observations := [obsDay1High148, obsDay2High150] }

/-- An observation on day 5 with value 140. -/
def mergeObsW : Observation := { date := 5, value := 140 }

/-- A sodium analyte carrying `mergeObsW`. -/
def mergeAnalyteW : LabAnalyte :=
  { analyte_key := "sodium"
    unit_canonical := "mmol/L"
    ref_range := { low := some 136, high := some 145 }
    observations := [mergeObsW] }

/-- A report from image "img1" carrying `mergeAnalyteW`. -/
def mergeReportW1 : LabReport :=
  { source_image_id := "img1"
    panels := [{ panel_name := "General", results := [mergeAnalyteW] }] }

/-- A report from image "img2" carrying the same analyte and observation. -/
def mergeReportW2 : LabReport :=
  { source_image_id := "img2"
    panels := [{ panel_name := "General", results := [mergeAnalyteW] }] }

/-- A trend with no flag, stable direction and zero change. -/
def simpleTrend : LabTrend :=
  { analyte_key := "t", direction := TrendDirection.stable, pct_change := 0, latest_flag := none }

-- ═══════════════════════════════════════════════════════════════
-- Theorems
-- ═══════════════════════════════════════════════════════════════

/-- Every critical multiplier (each table entry and the default) is nonnegative. -/
theorem criticalMultiplier_nonneg (key : String) : 0 ≤ criticalMultiplier key := by
  simp only [criticalMultiplier, alookup, CRITICAL_MULTIPLIER_OVERRIDES,
    DEFAULT_CRITICAL_MULTIPLIER]
  split_ifs <;> norm_num

/-- C1 (counterexample). The claim asserts that for Sodium = 148 against the
parsed range low = 136, high = 145, `compute_flag` invoked with analyte_key
"sodium" returns `high` because the multiplier is the default 0.5.  In the
code, "sodium" is in `CRITICAL_MULTIPLIER_OVERRIDES` with multiplier 0.10,
so the critical threshold is 145 + 9 * 0.10 = 145.9 < 148 and the result is
`critical_high`, not `high`. -/
theorem flag_sodium_148_claim_false :
    compute_flag 148 ⟨some 136, some 145, "136 - 145"⟩ "sodium" = Flag.critical_high ∧
    Flag.critical_high ≠ Flag.high := by
  constructor
  · simp only [compute_flag, ReferenceRange.is_bounded, criticalMultiplier, alookup,
      CRITICAL_MULTIPLIER_OVERRIDES, DEFAULT_CRITICAL_MULTIPLIER, pyOrFloat, String.reduceEq,
      Option.getD_some, Option.isSome_some, reduceIte]
    norm_num
  · intro h
    exact Flag.noConfusion h

/-- C1 (amended). For a single report containing Sodium with value 148 and
parsed reference range low = 136, high = 145, `compute_flag` (as invoked by
post-processing with analyte_key "sodium") returns `critical_high`: the
multiplier is the per-analyte override 0.10 for "sodium", giving critical
threshold 145 + (145 - 136) * 0.10 = 145.9, which 148 exceeds. -/
theorem flag_sodium_148_critical_high :
    compute_flag 148 ⟨some 136, some 145, "136 - 145"⟩ "sodium" = Flag.critical_high := by
  simp only [compute_flag, ReferenceRange.is_bounded, criticalMultiplier, alookup,
    CRITICAL_MULTIPLIER_OVERRIDES, DEFAULT_CRITICAL_MULTIPLIER, pyOrFloat, String.reduceEq,
    Option.getD_some, Option.isSome_some, reduceIte]
  norm_num

/-- C2 (counterexample). The claim asserts that for a range with only a high
bound, any value strictly above the bound is `critical_high` (no soft zone).
For the lone bound high = 5.0 and value 5.5 the code computes
span = 5.0 - (None or 0) = 5.0 > 0, threshold = 5.0 + 5.0 * 0.5 = 7.5, and
returns `high`, not `critical_high` (this matches the repository's own test
`test_upper_bound_only`). -/
theorem flag_lone_high_claim_false :
    compute_flag 5.5 ⟨none, some 5.0, ""⟩ "" = Flag.high ∧
    Flag.high ≠ Flag.critical_high := by
  constructor
  · simp only [compute_flag, ReferenceRange.is_bounded, criticalMultiplier, alookup,
      CRITICAL_MULTIPLIER_OVERRIDES, DEFAULT_CRITICAL_MULTIPLIER, pyOrFloat, String.reduceEq,
      Option.getD_none, Option.isSome_some, Option.isSome_none, Bool.false_or, reduceIte]
    norm_num
  · intro h
    exact Flag.noConfusion h

/-- C2 (amended). Single-sided ranges: with only a low bound, span collapses
to 0 and any value strictly below the bound is `critical_low` (the bare
boundary is the critical threshold).  With only a high bound the missing low
is treated as 0, so span = high: when high ≤ 0 any value strictly above the
bound is `critical_high`, but when high > 0 there is a soft zone — values in
(high, high + high * multiplier] are merely `high` and only values above
high + high * multiplier are `critical_high`. -/
theorem flag_single_sided :
    (∀ (lo v : ℚ) (key s : String), v < lo →
        compute_flag v ⟨some lo, none, s⟩ key = Flag.critical_low) ∧
    (∀ (hi v : ℚ) (key s : String), hi ≤ 0 → hi < v →
        compute_flag v ⟨none, some hi, s⟩ key = Flag.critical_high) ∧
    (∀ (hi v : ℚ) (key s : String), 0 < hi → hi + hi * criticalMultiplier key < v →
        compute_flag v ⟨none, some hi, s⟩ key = Flag.critical_high) ∧
    (∀ (hi v : ℚ) (key s : String), 0 < hi → hi < v → v ≤ hi + hi * criticalMultiplier key →
        compute_flag v ⟨none, some hi, s⟩ key = Flag.high) := by
  refine ⟨fun lo v key s h => ?_, fun hi v key s h0 h1 => ?_,
    fun hi v key s h0 h2 => ?_, fun hi v key s h0 h1 h2 => ?_⟩
  · simp only [compute_flag, ReferenceRange.is_bounded, pyOrFloat, Option.isSome_some,
      Option.isSome_none, Bool.or_false, Bool.or_true]
    rw [if_neg (by simp), if_pos h, sub_self, if_neg (lt_irrefl 0), if_pos h]
  · simp only [compute_flag, ReferenceRange.is_bounded, pyOrFloat, Option.isSome_some,
      Option.isSome_none, Bool.or_false, Bool.false_or]
    rw [if_neg (by simp), if_pos h1, sub_zero, if_neg (not_lt.mpr h0), if_pos h1]
  · have h1 : hi < v :=
      lt_of_le_of_lt (le_add_of_nonneg_right (mul_nonneg h0.le (criticalMultiplier_nonneg key))) h2
    simp only [compute_flag, ReferenceRange.is_bounded, pyOrFloat, Option.isSome_some,
      Option.isSome_none, Bool.or_false, Bool.false_or]
    rw [if_neg (by simp), if_pos h1, sub_zero, if_pos h0, if_pos h2]
  · simp only [compute_flag, ReferenceRange.is_bounded, pyOrFloat, Option.isSome_some,
      Option.isSome_none, Bool.or_false, Bool.false_or]
    rw [if_neg (by simp), if_pos h1, sub_zero, if_pos h0, if_neg (not_lt.mpr h2)]

/-- C2 (witness). Concrete instance of the amended single-sided law: with a
lone low bound of 1.0, the value 0.5 is immediately `critical_low` (matching
the repository's own test `test_lower_bound_only`). -/
theorem flag_single_sided_witness :
    compute_flag 0.5 ⟨some 1.0, none, ""⟩ "" = Flag.critical_low :=
  flag_single_sided.1 1.0 0.5 "" "" (by norm_num)

/-- C3 (counterexample). The claim asserts that for every reference range
with both bounds set, a value exactly equal to `high` yields `normal`.  The
model does not require low ≤ high (and `parse_reference_range` keeps the two
numbers in textual order with no reordering), so for the degenerate range
low = 5, high = 3 the boundary value 3 lands in the low branch with span
(3 or 5) - 5 = -2 ≤ 0, threshold = 5, and 3 < 5 gives `critical_low`, not
`normal`. -/
theorem flag_boundary_claim_false :
    compute_flag 3 ⟨some 5, some 3, ""⟩ "" = Flag.critical_low ∧
    Flag.critical_low ≠ Flag.normal := by
  constructor
  · simp only [compute_flag, ReferenceRange.is_bounded, criticalMultiplier, alookup,
      CRITICAL_MULTIPLIER_OVERRIDES, DEFAULT_CRITICAL_MULTIPLIER, pyOrFloat, String.reduceEq,
      Option.isSome_some, reduceIte]
    norm_num
  · intro h
    exact Flag.noConfusion h

/-- C3 (amended). For every reference range whose bounds are coherent
(low ≤ high when both are set) and every analyte_key, a value exactly equal
to `low` or exactly equal to `high` makes `compute_flag` return `normal`:
bounds are inclusive.  One-sided ranges satisfy this unconditionally. -/
theorem flag_boundary_inclusive :
    (∀ (lo hi : ℚ) (key s : String), lo ≤ hi →
        compute_flag lo ⟨some lo, some hi, s⟩ key = Flag.normal ∧
        compute_flag hi ⟨some lo, some hi, s⟩ key = Flag.normal) ∧
    (∀ (lo : ℚ) (key s : String), compute_flag lo ⟨some lo, none, s⟩ key = Flag.normal) ∧
    (∀ (hi : ℚ) (key s : String), compute_flag hi ⟨none, some hi, s⟩ key = Flag.normal) := by
  refine ⟨fun lo hi key s h => ⟨?_, ?_⟩, fun lo key s => ?_, fun hi key s => ?_⟩
  · simp only [compute_flag, ReferenceRange.is_bounded, pyOrFloat, Option.isSome_some,
      Bool.or_self]
    rw [if_neg (by simp), if_neg (not_lt.mpr h), if_neg (lt_irrefl lo)]
  · simp only [compute_flag, ReferenceRange.is_bounded, pyOrFloat, Option.isSome_some,
      Bool.or_self]
    rw [if_neg (by simp), if_neg (lt_irrefl hi), if_neg (not_lt.mpr h)]
  · simp only [compute_flag, ReferenceRange.is_bounded, pyOrFloat, Option.isSome_some,
      Option.isSome_none, Bool.or_false, Bool.or_true]
    rw [if_neg (by simp), if_neg (lt_irrefl lo)]
  · simp only [compute_flag, ReferenceRange.is_bounded, pyOrFloat, Option.isSome_some,
      Option.isSome_none, Bool.or_false, Bool.false_or]
    rw [if_neg (by simp), if_neg (lt_irrefl hi)]

/-- C3 (witness). Concrete instance of the amended boundary-inclusivity law
at the potassium range 3.5 - 5.1: both boundary values flag `normal`. -/
theorem flag_boundary_inclusive_witness :
    compute_flag 3.5 ⟨some 3.5, some 5.1, ""⟩ "" = Flag.normal ∧
    compute_flag 5.1 ⟨some 3.5, some 5.1, ""⟩ "" = Flag.normal :=
  flag_boundary_inclusive.1 3.5 5.1 "" "" (by norm_num)

/-- C9. `convert_value` returns the value unchanged whenever the two unit
strings normalize to the same canonical unit; when they differ it applies
the directed table factor, so `convert_value 1.0 "g/dL" "g/L" = 10.0`; and
when no directed factor exists it returns `none` rather than failing, so
`convert_value x "fL" "mg/dL"` is `none` for every x. -/
theorem convert_value_spec :
    (∀ (value : ℚ) (fu tu : String), normalize_unit fu = normalize_unit tu →
        convert_value value fu tu = some value) ∧
    convert_value 1.0 "g/dL" "g/L" = some 10.0 ∧
    (∀ x : ℚ, convert_value x "fL" "mg/dL" = none) := by
  refine ⟨fun value fu tu h => ?_, ?_, fun x => ?_⟩
  · simp only [convert_value]
    rw [if_pos h]
  · have h1 : normalize_unit "g/dL" = "g/dL" := by decide
    have h2 : normalize_unit "g/L" = "g/L" := by decide
    simp only [convert_value, h1, h2, alookup, _CONVERSIONS, String.reduceEq,
      Prod.mk.injEq, reduceIte, and_self, and_false, false_and]
    norm_num
  · have h1 : normalize_unit "fL" = "fL" := by decide
    have h2 : normalize_unit "mg/dL" = "mg/dL" := by decide
    simp only [convert_value, h1, h2, alookup, _CONVERSIONS, String.reduceEq,
      Prod.mk.injEq, reduceIte, and_self, and_false, false_and]

/-- C9 (witness). The same-canonical-unit conjunct at a concrete input:
"ML" and "ml" both normalize to "mL", so the value passes through. -/
theorem convert_value_spec_witness : convert_value 7 "ML" "ml" = some 7 :=
  convert_value_spec.1 7 "ML" "ml" (by decide)

/-- C10. `load_images` (the validation entry used by `run_full_pipeline` and
`run_extract_only`) rejects an empty path list with an
`ImageValidationError` ("No images provided"), and likewise rejects any
batch with more than `max_images` paths, before any file is read: an empty
input batch is never processed into an empty analysis. -/
theorem load_images_rejects :
    (∀ (loadOne : String → Except ImageValidationError PreparedImage) (max_images : Nat),
        load_images loadOne [] max_images = Except.error ⟨"No images provided"⟩) ∧
    (∀ (loadOne : String → Except ImageValidationError PreparedImage)
        (paths : List String) (max_images : Nat), paths.length > max_images →
        load_images loadOne paths max_images =
          Except.error
            ⟨"Too many images (" ++ toString paths.length ++ "); max allowed is "
              ++ toString max_images⟩) := by
  constructor
  · intro loadOne max_images
    simp [load_images]
  · intro loadOne paths max_images h
    simp only [load_images]
    rw [if_pos h]

/-- C10 (witness). Concrete instances: the empty batch is rejected, and a
two-image batch against a ceiling of one is rejected. -/
theorem load_images_rejects_witness :
    load_images dummyLoader [] 10 = Except.error ⟨"No images provided"⟩ ∧
    (["a", "b"].length > 1 ∧
      load_images dummyLoader ["a", "b"] 1 =
        Except.error
          ⟨"Too many images (" ++ toString (["a", "b"] : List String).length
            ++ "); max allowed is " ++ toString (1 : Nat)⟩) :=
  ⟨load_images_rejects.1 dummyLoader 10,
    by decide,
    load_images_rejects.2 dummyLoader ["a", "b"] 1 (by decide)⟩

/-- C8. `parse_reference_range` is total in the embedding; for every input
the returned `raw_text` is the original untrimmed string, and input on which
none of the numeric patterns matches (after stripping and segment handling)
yields an unbounded range — in particular the qualitative string "Negative"
yields low = high = none with `is_bounded = false`. -/
theorem parse_reference_range_graceful :
    (∀ raw : String, (parse_reference_range raw).raw_text = raw) ∧
    (∀ raw : String,
        searchRange (_segment (pyStrip raw).data) = none →
        searchUpper (_segment (pyStrip raw).data) = none →
        searchLower (_segment (pyStrip raw).data) = none →
        (parse_reference_range raw).low = none ∧
        (parse_reference_range raw).high = none ∧
        (parse_reference_range raw).is_bounded = false) ∧
    ((parse_reference_range "Negative").low = none ∧
      (parse_reference_range "Negative").high = none ∧
      (parse_reference_range "Negative").is_bounded = false) := by
  refine ⟨fun raw => ?_, fun raw h1 h2 h3 => ?_, by decide⟩
  · by_cases he : pyStrip raw = ""
    · simp [parse_reference_range, he]
    · by_cases hq : isQualitative (pyStrip raw)
      · simp [parse_reference_range, he, hq]
      · simp only [parse_reference_range, he, hq, if_false, Bool.false_eq_true, if_neg,
          ite_false]
        rcases hr : searchRange (_segment (pyStrip raw).data) with _ | lohi <;>
          rcases hu : searchUpper (_segment (pyStrip raw).data) with _ | hi <;>
          rcases hl : searchLower (_segment (pyStrip raw).data) with _ | lo <;>
          simp [hr, hu, hl]
  · by_cases he : pyStrip raw = ""
    · simp [parse_reference_range, he, ReferenceRange.is_bounded]
    · by_cases hq : isQualitative (pyStrip raw)
      · simp [parse_reference_range, he, hq, ReferenceRange.is_bounded]
      · simp [parse_reference_range, he, hq, h1, h2, h3, ReferenceRange.is_bounded]

/-- C8 (witness). The no-pattern conjunct applied to the free-text input
"see note": no numeric pattern matches, so the range is unbounded. -/
theorem parse_reference_range_graceful_witness :
    (parse_reference_range "see note").low = none ∧
    (parse_reference_range "see note").high = none ∧
    (parse_reference_range "see note").is_bounded = false :=
  parse_reference_range_graceful.2.1 "see note" (by decide) (by decide) (by decide)

-- ─── Stable-sort lemmas ─────────────────────────────────────────

/-- Inserting is a permutation of consing. -/
theorem insertPre_perm {α : Type} (pre : α → α → Bool) (x : α) :
    ∀ l : List α, (insertPre pre x l).Perm (x :: l)
  | [] => List.Perm.refl _
  | y :: ys => by
    unfold insertPre
    split
    · exact ((insertPre_perm pre x ys).cons y).trans (List.Perm.swap x y ys)
    · exact List.Perm.refl _

/-- The insertion fold permutes the accumulator followed by the input. -/
theorem foldl_insertPre_perm {α : Type} (pre : α → α → Bool) :
    ∀ (l acc : List α), (l.foldl (fun acc x => insertPre pre x acc) acc).Perm (acc ++ l)
  | [], acc => by simp
  | x :: xs, acc => by
    have h1 := foldl_insertPre_perm pre xs (insertPre pre x acc)
    have h2 : (insertPre pre x acc ++ xs).Perm ((x :: acc) ++ xs) :=
      (insertPre_perm pre x acc).append_right xs
    have h3 : ((x :: acc) ++ xs).Perm (acc ++ x :: xs) := List.perm_middle.symm
    simpa using h1.trans (h2.trans h3)

/-- `sortOn` permutes its input. -/
theorem sortOn_perm {α : Type} (pre : α → α → Bool) (l : List α) : (sortOn pre l).Perm l := by
  simpa using foldl_insertPre_perm pre l []

/-- When every present element precedes `x`, insertion appends `x`. -/
theorem insertPre_eq_append {α : Type} (pre : α → α → Bool) (x : α) :
    ∀ l : List α, (∀ y ∈ l, pre y x = true) → insertPre pre x l = l ++ [x]
  | [], _ => rfl
  | y :: ys, h => by
    unfold insertPre
    rw [if_pos (h y (List.mem_cons_self y ys)),
      insertPre_eq_append pre x ys (fun z hz => h z (List.mem_cons_of_mem y hz))]
    rfl

/-- The insertion fold leaves an already-ordered input unchanged. -/
theorem foldl_insertPre_eq_self {α : Type} (pre : α → α → Bool) :
    ∀ (l acc : List α), (∀ y ∈ acc, ∀ z ∈ l, pre y z = true) →
      l.Pairwise (fun a b => pre a b = true) →
      l.foldl (fun acc x => insertPre pre x acc) acc = acc ++ l
  | [], acc, _, _ => by simp
  | x :: xs, acc, hacc, hpw => by
    have hx : insertPre pre x acc = acc ++ [x] :=
      insertPre_eq_append pre x acc (fun y hy => hacc y hy x (List.mem_cons_self x xs))
    have hacc' : ∀ y ∈ acc ++ [x], ∀ z ∈ xs, pre y z = true := by
      intro y hy z hz
      rcases List.mem_append.mp hy with hy | hy
      · exact hacc y hy z (List.mem_cons_of_mem x hz)
      · rcases List.mem_singleton.mp hy with rfl
        exact (List.pairwise_cons.mp hpw).1 z hz
    have := foldl_insertPre_eq_self pre xs (acc ++ [x]) hacc' (List.pairwise_cons.mp hpw).2
    simp only [List.foldl_cons, hx, this, List.append_assoc, List.singleton_append]

/-- Sorting an already-ordered list is the identity. -/
theorem sortOn_eq_self {α : Type} (pre : α → α → Bool) (l : List α)
    (h : l.Pairwise (fun a b => pre a b = true)) : sortOn pre l = l := by
  simpa using foldl_insertPre_eq_self pre l [] (by simp) h

/-- Membership in an insertion. -/
theorem mem_insertPre {α : Type} {pre : α → α → Bool} {x a : α} {l : List α} :
    a ∈ insertPre pre x l ↔ a = x ∨ a ∈ l := by
  rw [(insertPre_perm pre x l).mem_iff, List.mem_cons]

/-- Insertion preserves pairwise order (for a total transitive comparison). -/
theorem insertPre_pairwise {α : Type} {pre : α → α → Bool}
    (htot : ∀ a b, pre a b = true ∨ pre b a = true)
    (htrans : ∀ a b c, pre a b = true → pre b c = true → pre a c = true) (x : α) :
    ∀ l : List α, l.Pairwise (fun a b => pre a b = true) →
      (insertPre pre x l).Pairwise (fun a b => pre a b = true)
  | [], _ => by simp [insertPre]
  | y :: ys, h => by
    rcases List.pairwise_cons.mp h with ⟨hy, hys⟩
    unfold insertPre
    split
    · refine List.pairwise_cons.mpr ⟨?_, insertPre_pairwise htot htrans x ys hys⟩
      intro z hz
      rcases mem_insertPre.mp hz with rfl | hz
      · assumption
      · exact hy z hz
    · rename_i hyx
      refine List.pairwise_cons.mpr ⟨?_, h⟩
      intro z hz
      have hxy : pre x y = true := (htot x y).resolve_right (by simpa using hyx)
      rcases List.mem_cons.mp hz with rfl | hz
      · exact hxy
      · exact htrans x y z hxy (hy z hz)

/-- `sortOn` output is pairwise ordered (total transitive comparison). -/
theorem sortOn_pairwise {α : Type} {pre : α → α → Bool}
    (htot : ∀ a b, pre a b = true ∨ pre b a = true)
    (htrans : ∀ a b c, pre a b = true → pre b c = true → pre a c = true) (l : List α) :
    (sortOn pre l).Pairwise (fun a b => pre a b = true) := by
  suffices h : ∀ (l acc : List α), acc.Pairwise (fun a b => pre a b = true) →
      (l.foldl (fun acc x => insertPre pre x acc) acc).Pairwise (fun a b => pre a b = true) by
    exact h l [] (by simp)
  intro l
  induction l with
  | nil => intro acc h; simpa using h
  | cons x xs ih =>
    intro acc h
    exact ih (insertPre pre x acc) (insertPre_pairwise htot htrans x acc h)

/-- Stability, elementwise: inserting `x` into a sorted list puts it after
every earlier element of its own equivalence class (here: class picked out
by a predicate `p` closed under the comparison). -/
theorem insertPre_filter {α : Type} {pre : α → α → Bool} (p : α → Bool)
    (htrans : ∀ a b c, pre a b = true → pre b c = true → pre a c = true) (x : α)
    (hp : ∀ y, p y = true → p x = true → pre y x = true) :
    ∀ l : List α, l.Pairwise (fun a b => pre a b = true) →
      (insertPre pre x l).filter p = (if p x then l.filter p ++ [x] else l.filter p)
  | [], _ => by
    by_cases hx : p x <;> simp [insertPre, List.filter, hx]
  | y :: ys, h => by
    rcases List.pairwise_cons.mp h with ⟨hy, hys⟩
    unfold insertPre
    split
    · have ihr := insertPre_filter p htrans x hp ys hys
      by_cases hx : p x <;> by_cases hpy : p y <;>
        simp [List.filter_cons, hpy, hx, ihr]
    · rename_i hyx
      by_cases hx : p x
      · have hny : p y = false := by
          by_contra hc
          exact hyx (hp y (by simpa using hc) hx)
        have hnz : ∀ z ∈ ys, p z = false := by
          intro z hz
          by_contra hc
          have hzx : pre z x = true := hp z (by simpa using hc) hx
          exact hyx (htrans y z x (hy z hz) hzx)
        have hfil : (y :: ys).filter p = [] := by
          rw [List.filter_eq_nil_iff]
          intro z hz
          rcases List.mem_cons.mp hz with rfl | hz
          · simp [hny]
          · simp [hnz z hz]
        simp [List.filter_cons, hx, hfil]
      · simp [List.filter_cons, hx]

/-- Stability of `sortOn`: the sublist of any comparison-equivalence class
(picked out by `p`) is exactly its sublist in the input. -/
theorem sortOn_filter {α : Type} {pre : α → α → Bool} (p : α → Bool)
    (htot : ∀ a b, pre a b = true ∨ pre b a = true)
    (htrans : ∀ a b c, pre a b = true → pre b c = true → pre a c = true)
    (hp : ∀ y x, p y = true → p x = true → pre y x = true) (l : List α) :
    (sortOn pre l).filter p = l.filter p := by
  suffices h : ∀ (l acc : List α), acc.Pairwise (fun a b => pre a b = true) →
      (l.foldl (fun acc x => insertPre pre x acc) acc).filter p =
        acc.filter p ++ l.filter p by
    simpa using h l [] (by simp)
  intro l
  induction l with
  | nil => intro acc h; simp
  | cons x xs ih =>
    intro acc h
    rw [List.foldl_cons, ih (insertPre pre x acc) (insertPre_pairwise htot htrans x acc h),
      insertPre_filter p htrans x (fun y hy hx => hp y x hy hx) acc h, List.filter_cons]
    by_cases hx : p x <;> simp [hx]

-- ─── Trend-engine lemmas ────────────────────────────────────────

/-- There is one consecutive delta per adjacent pair. -/
theorem pairDiffs_length : ∀ obs : List Observation, (_pairDiffs obs).length = obs.length - 1
  | [] => rfl
  | [_] => rfl
  | a :: b :: rest => by
    have h := pairDiffs_length (b :: rest)
    simp only [_pairDiffs, List.length_cons] at h ⊢
    omega

/-- A strictly decreasing series has only negative deltas. -/
theorem pairDiffs_neg : ∀ obs : List Observation,
    obs.Chain' (fun x y => y.value < x.value) → ∀ d ∈ _pairDiffs obs, d < 0
  | [], _, d, hd => by simp [_pairDiffs] at hd
  | [_], _, d, hd => by simp [_pairDiffs] at hd
  | a :: b :: rest, h, d, hd => by
    rw [List.chain'_cons] at h
    rcases List.mem_cons.mp (by simpa [_pairDiffs] using hd) with rfl | hd'
    · linarith [h.1]
    · exact pairDiffs_neg (b :: rest) h.2 d hd'

/-- A strictly increasing series has only positive deltas. -/
theorem pairDiffs_pos : ∀ obs : List Observation,
    obs.Chain' (fun x y => x.value < y.value) → ∀ d ∈ _pairDiffs obs, 0 < d
  | [], _, d, hd => by simp [_pairDiffs] at hd
  | [_], _, d, hd => by simp [_pairDiffs] at hd
  | a :: b :: rest, h, d, hd => by
    rw [List.chain'_cons] at h
    rcases List.mem_cons.mp (by simpa [_pairDiffs] using hd) with rfl | hd'
    · linarith [h.1]
    · exact pairDiffs_pos (b :: rest) h.2 d hd'

/-- All-negative deltas give slope -1. -/
theorem slope_sign_neg (obs : List Observation) (hlen : 2 ≤ obs.length)
    (h : ∀ d ∈ _pairDiffs obs, d < 0) : _slope_sign obs = -1 := by
  have hpos : (List.filter (fun d => decide (d > 0)) (_pairDiffs obs)).length = 0 := by
    simp only [List.length_eq_zero, List.filter_eq_nil_iff]
    intro d hd
    simpa using not_lt.mpr (h d hd).le
  have hneg : (List.filter (fun d => decide (d < 0)) (_pairDiffs obs)).length =
      (_pairDiffs obs).length := by
    congr 1
    rw [List.filter_eq_self]
    intro d hd
    simpa using h d hd
  have hlen' : 1 ≤ (_pairDiffs obs).length := by
    rw [pairDiffs_length]; omega
  simp only [_slope_sign]
  rw [if_neg (by omega), hpos, hneg, if_neg (by omega), if_pos (by omega)]

/-- All-positive deltas give slope +1. -/
theorem slope_sign_pos (obs : List Observation) (hlen : 2 ≤ obs.length)
    (h : ∀ d ∈ _pairDiffs obs, 0 < d) : _slope_sign obs = 1 := by
  have hneg : (List.filter (fun d => decide (d < 0)) (_pairDiffs obs)).length = 0 := by
    simp only [List.length_eq_zero, List.filter_eq_nil_iff]
    intro d hd
    simpa using not_lt.mpr (h d hd).le
  have hpos : (List.filter (fun d => decide (d > 0)) (_pairDiffs obs)).length =
      (_pairDiffs obs).length := by
    congr 1
    rw [List.filter_eq_self]
    intro d hd
    simpa using h d hd
  have hlen' : 1 ≤ (_pairDiffs obs).length := by
    rw [pairDiffs_length]; omega
  simp only [_slope_sign]
  rw [if_neg (by omega), hpos, hneg, if_pos (by omega)]

/-- The reversal counter stays at zero while all deltas share one sign. -/
theorem fluctStep_const_sign (s : Int) (hs : s ≠ 0) :
    ∀ (diffs : List ℚ), (∀ d ∈ diffs, signOf d = s) → ∀ p : Int, p = 0 ∨ p = s →
      (diffs.foldl _fluctStep (0, p)).1 = 0
  | [], _, p, _ => rfl
  | d :: ds, h, p, hp => by
    have hd : signOf d = s := h d (List.mem_cons_self d ds)
    have hstep : _fluctStep (0, p) d = (0, s) := by
      simp only [_fluctStep, hd]
      rcases hp with rfl | rfl
      · simp [hs]
      · simp [hs]
    rw [List.foldl_cons, hstep]
    exact fluctStep_const_sign s hs ds (fun z hz => h z (List.mem_cons_of_mem d hz)) s (Or.inr rfl)

/-- A series whose deltas all share one nonzero sign never fluctuates. -/
theorem is_fluctuating_const_sign (obs : List Observation) (s : Int) (hs : s ≠ 0)
    (h : ∀ d ∈ _pairDiffs obs, signOf d = s) : _is_fluctuating obs = false := by
  unfold _is_fluctuating
  split
  · rfl
  · rw [fluctStep_const_sign s hs (_pairDiffs obs) h 0 (Or.inl rfl)]
    simp

/-- C6. For an analyte whose (strictly) date-sorted observations are
strictly monotonically decreasing in value and whose latest resolved flag is
`high` or `critical_high`, `compute_trend` returns direction `improving`;
for strictly monotonically increasing observations with the same latest
flag, it returns `worsening`. -/
theorem compute_trend_monotone :
    (∀ a : LabAnalyte, 2 ≤ a.observations.length →
        a.observations.Pairwise (fun x y => x.date < y.date) →
        a.observations.Chain' (fun x y => y.value < x.value) →
        (∀ x, a.observations.getLast? = some x →
          pyOrFlag x = Flag.high ∨ pyOrFlag x = Flag.critical_high) →
        (compute_trend a).direction = TrendDirection.improving) ∧
    (∀ a : LabAnalyte, 2 ≤ a.observations.length →
        a.observations.Pairwise (fun x y => x.date < y.date) →
        a.observations.Chain' (fun x y => x.value < y.value) →
        (∀ x, a.observations.getLast? = some x →
          pyOrFlag x = Flag.high ∨ pyOrFlag x = Flag.critical_high) →
        (compute_trend a).direction = TrendDirection.worsening) := by
  constructor
  · intro a hlen hsorted hdec hflag
    have hps : a.observations.Pairwise (fun x y => obsDatePre x y = true) :=
      hsorted.imp (fun h => by simpa [obsDatePre] using le_of_lt h)
    have hs : sortOn obsDatePre a.observations = a.observations := sortOn_eq_self _ _ hps
    obtain ⟨o, rest, ho⟩ : ∃ o rest, a.observations = o :: rest := by
      cases hobs : a.observations with
      | nil => rw [hobs] at hlen; simp at hlen
      | cons o rest => exact ⟨o, rest, rfl⟩
    have hsign : ∀ d ∈ _pairDiffs a.observations, signOf d = -1 := by
      intro d hd
      have := pairDiffs_neg a.observations hdec d hd
      simp [signOf, this, not_lt.mpr this.le]
    have hfluct : _is_fluctuating a.observations = false :=
      is_fluctuating_const_sign a.observations (-1) (by norm_num) hsign
    have hslope : _slope_sign a.observations = -1 :=
      slope_sign_neg a.observations hlen (pairDiffs_neg a.observations hdec)
    have hlast := hflag ((o :: rest).getLast (List.cons_ne_nil o rest))
      (by rw [ho]; exact List.getLast?_eq_getLast _ _)
    unfold compute_trend
    rw [hs, ho]
    simp only []
    show _determine_direction (o :: rest) (pyOrFlag _) = TrendDirection.improving
    rw [ho] at hfluct hslope hlen
    simp only [_determine_direction]
    rw [if_neg (by simpa using hlen), if_neg (by simp [hfluct]), hslope,
      if_pos hlast, if_pos (by norm_num)]
  · intro a hlen hsorted hinc hflag
    have hps : a.observations.Pairwise (fun x y => obsDatePre x y = true) :=
      hsorted.imp (fun h => by simpa [obsDatePre] using le_of_lt h)
    have hs : sortOn obsDatePre a.observations = a.observations := sortOn_eq_self _ _ hps
    obtain ⟨o, rest, ho⟩ : ∃ o rest, a.observations = o :: rest := by
      cases hobs : a.observations with
      | nil => rw [hobs] at hlen; simp at hlen
      | cons o rest => exact ⟨o, rest, rfl⟩
    have hsign : ∀ d ∈ _pairDiffs a.observations, signOf d = 1 := by
      intro d hd
      have := pairDiffs_pos a.observations hinc d hd
      simp [signOf, this]
    have hfluct : _is_fluctuating a.observations = false :=
      is_fluctuating_const_sign a.observations 1 (by norm_num) hsign
    have hslope : _slope_sign a.observations = 1 :=
      slope_sign_pos a.observations hlen (pairDiffs_pos a.observations hinc)
    have hlast := hflag ((o :: rest).getLast (List.cons_ne_nil o rest))
      (by rw [ho]; exact List.getLast?_eq_getLast _ _)
    unfold compute_trend
    rw [hs, ho]
    simp only []
    show _determine_direction (o :: rest) (pyOrFlag _) = TrendDirection.worsening
    rw [ho] at hfluct hslope hlen
    simp only [_determine_direction]
    rw [if_neg (by simpa using hlen), if_neg (by simp [hfluct]), hslope,
      if_pos hlast, if_neg (by norm_num), if_pos (by norm_num)]

/-- C6 (witness). A two-point strictly decreasing high-flagged sodium series
trends `improving`, and the mirrored increasing series trends `worsening`. -/
theorem compute_trend_monotone_witness :
    (compute_trend trendDecAnalyte).direction = TrendDirection.improving ∧
    (compute_trend trendIncAnalyte).direction = TrendDirection.worsening := by
  constructor
  · refine compute_trend_monotone.1 trendDecAnalyte (by decide) ?_ ?_ ?_
    · simp only [trendDecAnalyte, List.pairwise_cons, List.mem_singleton]
      refine ⟨?_, by simp⟩
      intro b hb
      rw [hb]
      decide
    · simp only [trendDecAnalyte, List.chain'_cons, List.chain'_singleton, and_true]
      norm_num [obsDay1High150, obsDay2High148]
    · intro x hx
      left
      simp only [trendDecAnalyte] at hx
      rw [List.getLast?_eq_getLast _ (by simp)] at hx
      simp only [Option.some.injEq] at hx
      rw [← hx]
      rfl
  · refine compute_trend_monotone.2 trendIncAnalyte (by decide) ?_ ?_ ?_
    · simp only [trendIncAnalyte, List.pairwise_cons, List.mem_singleton]
      refine ⟨?_, by simp⟩
      intro b hb
      rw [hb]
      decide
    · simp only [trendIncAnalyte, List.chain'_cons, List.chain'_singleton, and_true]
      norm_num [obsDay1High148, obsDay2High150]
    · intro x hx
      left
      simp only [trendIncAnalyte] at hx
      rw [List.getLast?_eq_getLast _ (by simp)] at hx
      simp only [Option.some.injEq] at hx
      rw [← hx]
      rfl

-- ─── Severity lemmas ────────────────────────────────────────────

/-- `compute_severity` reads only the flag, direction and pct_change, so
overwriting `severity_score` does not change it. -/
theorem compute_severity_score_irrelevant (t : LabTrend) (c : ℚ) :
    compute_severity { t with severity_score := c } = compute_severity t := rfl

/-- C7. `compute_severity` equals flag weight (100 critical, 50 high/low, 0
normal/absent) + direction weight (30 worsening, 15 fluctuating, 0 stable,
-10 improving) + `min |pct_change| 200 * 0.1`, rounded to 2 decimals; and
`sort_trends_by_severity` overwrites every trend's `severity_score` with
this value and returns the trends sorted descending by score, ties keeping
input order (stability stated as: the sublist at any fixed score equals its
sublist in the score-updated input). -/
theorem severity_spec :
    (∀ t : LabTrend, compute_severity t =
        round2 ((match t.latest_flag with
          | some Flag.critical_high => 100
          | some Flag.critical_low => 100
          | some Flag.high => 50
          | some Flag.low => 50
          | some Flag.normal => 0
          | none => 0) +
          (match t.direction with
          | TrendDirection.worsening => 30
          | TrendDirection.fluctuating => 15
          | TrendDirection.stable => 0
          | TrendDirection.improving => -10) +
          min |t.pct_change| 200.0 * 0.1)) ∧
    (∀ ts : List LabTrend,
        (sort_trends_by_severity ts).Perm
          (ts.map (fun t => { t with severity_score := compute_severity t })) ∧
        (∀ t ∈ sort_trends_by_severity ts, t.severity_score = compute_severity t) ∧
        (sort_trends_by_severity ts).Pairwise
          (fun a b => b.severity_score ≤ a.severity_score) ∧
        (∀ c : ℚ, (sort_trends_by_severity ts).filter
              (fun t => decide (t.severity_score = c)) =
            (ts.map (fun t => { t with severity_score := compute_severity t })).filter
              (fun t => decide (t.severity_score = c)))) := by
  have htot : ∀ a b : LabTrend,
      (decide (b.severity_score ≤ a.severity_score)) = true ∨
      (decide (a.severity_score ≤ b.severity_score)) = true := by
    intro a b
    rcases le_total b.severity_score a.severity_score with h | h
    · exact Or.inl (decide_eq_true h)
    · exact Or.inr (decide_eq_true h)
  have htrans : ∀ a b c : LabTrend,
      (decide (b.severity_score ≤ a.severity_score)) = true →
      (decide (c.severity_score ≤ b.severity_score)) = true →
      (decide (c.severity_score ≤ a.severity_score)) = true := by
    intro a b c hab hbc
    exact decide_eq_true (le_trans (of_decide_eq_true hbc) (of_decide_eq_true hab))
  constructor
  · intro t
    rcases hf : t.latest_flag with _ | f
    · rcases hd : t.direction <;>
        simp [compute_severity, hf, hd, _FLAG_WEIGHT, _DIRECTION_WEIGHT] <;> norm_num
    · cases f <;> rcases hd : t.direction <;>
        simp [compute_severity, hf, hd, _FLAG_WEIGHT, _DIRECTION_WEIGHT] <;> norm_num
  · intro ts
    refine ⟨?_, ?_, ?_, ?_⟩
    · exact sortOn_perm _ _
    · intro t ht
      have hmem : t ∈ ts.map (fun t => { t with severity_score := compute_severity t }) :=
        (sortOn_perm _ _).mem_iff.mp ht
      rcases List.mem_map.mp hmem with ⟨t', _, rfl⟩
      exact (compute_severity_score_irrelevant t' (compute_severity t')).symm
    · have := sortOn_pairwise htot htrans
        (ts.map (fun t => { t with severity_score := compute_severity t }))
      exact this.imp (fun h => of_decide_eq_true h)
    · intro c
      exact sortOn_filter _ htot htrans
        (fun y x hy hx => decide_eq_true
          (le_of_eq ((of_decide_eq_true hx).trans (of_decide_eq_true hy).symm)))
        _

/-- C7 (witness). In the singleton sort every returned trend carries its
recomputed severity score. -/
theorem severity_spec_witness :
    ({ simpleTrend with severity_score := compute_severity simpleTrend } : LabTrend).severity_score
      = compute_severity { simpleTrend with severity_score := compute_severity simpleTrend } :=
  (severity_spec.2 [simpleTrend]).2.1 _ (by simp [sort_trends_by_severity, sortOn, insertPre])

-- ─── Association-list (Python dict) lemmas ─────────────────────

theorem alookup_upsert {κ β : Type} [DecidableEq κ] (k k' : κ) (v : β) :
    ∀ m : List (κ × β),
      alookup k' (upsert k v m) = if k' = k then some v else alookup k' m
  | [] => by
    by_cases h3 : k' = k
    · subst h3; simp [upsert, alookup]
    · simp [upsert, alookup, h3, Ne.symm h3]
  | e :: rest => by
    by_cases h3 : k' = k
    · subst h3
      by_cases he : e.1 = k'
      · simp [upsert, alookup, he]
      · simp [upsert, alookup, he, alookup_upsert k' k' v rest]
    · by_cases he : e.1 = k
      · have h2 : e.1 ≠ k' := fun hc => h3 (hc.symm.trans he)
        simp [upsert, alookup, he, h2, h3, Ne.symm h3]
      · simp [upsert, alookup, he, alookup_upsert k k' v rest, h3]

theorem alookup_updateAt {κ β : Type} [DecidableEq κ] (k k' : κ) (f : β → β) :
    ∀ m : List (κ × β),
      alookup k' (updateAt k f m) =
        if k' = k then (alookup k' m).map f else alookup k' m
  | [] => by by_cases h3 : k' = k <;> simp [updateAt, alookup, h3]
  | e :: rest => by
    by_cases h3 : k' = k
    · subst h3
      by_cases he : e.1 = k'
      · simp [updateAt, alookup, he]
      · simp [updateAt, alookup, he, alookup_updateAt k' k' f rest]
    · by_cases he : e.1 = k
      · have h2 : e.1 ≠ k' := fun hc => h3 (hc.symm.trans he)
        simp [updateAt, alookup, he, h2, h3, Ne.symm h3]
      · simp [updateAt, alookup, he, alookup_updateAt k k' f rest, h3]

theorem akeys_updateAt {κ β : Type} [DecidableEq κ] (k : κ) (f : β → β) :
    ∀ m : List (κ × β), akeys (updateAt k f m) = akeys m
  | [] => rfl
  | e :: rest => by
    by_cases he : e.1 = k
    · simp [updateAt, akeys, he]
    · have ih := akeys_updateAt k f rest
      simp only [akeys] at ih
      simp [updateAt, akeys, he, ih]

theorem akeys_upsert {κ β : Type} [DecidableEq κ] (k : κ) (v : β) :
    ∀ m : List (κ × β),
      akeys (upsert k v m) = if k ∈ akeys m then akeys m else akeys m ++ [k]
  | [] => by simp [upsert, akeys]
  | e :: rest => by
    by_cases he : e.1 = k
    · simp [upsert, akeys, he]
    · have ih := akeys_upsert k v rest
      simp only [akeys] at ih
      by_cases hm : k ∈ List.map Prod.fst rest
      · simp [upsert, akeys, he, ih, hm, Ne.symm he]
      · simp [upsert, akeys, he, ih, hm, Ne.symm he]

theorem mem_akeys_iff_isSome {κ β : Type} [DecidableEq κ] (k : κ) :
    ∀ m : List (κ × β), k ∈ akeys m ↔ (alookup k m).isSome
  | [] => by simp [akeys, alookup]
  | e :: rest => by
    by_cases he : e.1 = k
    · simp [akeys, alookup, he]
    · have hne : k = e.1 ↔ False := ⟨fun hc => he hc.symm, False.elim⟩
      have ih := mem_akeys_iff_isSome k rest
      simpa [akeys, alookup, he, hne] using ih

theorem alookup_of_mem_nodup {κ β : Type} [DecidableEq κ] {k : κ} {v : β} :
    ∀ m : List (κ × β), (akeys m).Nodup → (k, v) ∈ m → alookup k m = some v
  | [], _, hm => by simp at hm
  | e :: rest, hn, hm => by
    rcases List.mem_cons.mp hm with rfl | hm'
    · simp [alookup]
    · have hn' : (e.1 :: akeys rest).Nodup := hn
      have hk : k ∈ akeys rest := List.mem_map.mpr ⟨(k, v), hm', rfl⟩
      have he : e.1 ≠ k := by
        intro hc
        exact (List.nodup_cons.mp hn').1 (hc ▸ hk)
      simp [alookup, he, alookup_of_mem_nodup rest (List.nodup_cons.mp hn').2 hm']

theorem mem_of_alookup {κ β : Type} [DecidableEq κ] {k : κ} {v : β} :
    ∀ m : List (κ × β), alookup k m = some v → (k, v) ∈ m
  | [], h => by simp [alookup] at h
  | e :: rest, h => by
    by_cases he : e.1 = k
    · simp only [alookup, if_pos he] at h
      have hv : e.2 = v := Option.some.inj h
      exact List.mem_cons.mpr (Or.inl (by rw [← he, ← hv]))
    · simp only [alookup, if_neg he] at h
      exact List.mem_cons_of_mem e (mem_of_alookup rest h)

theorem mem_upsert_elim {κ β : Type} [DecidableEq κ] {k : κ} {v : β} {e : κ × β} :
    ∀ m : List (κ × β), e ∈ upsert k v m → e = (k, v) ∨ e ∈ m
  | [], h => by simpa [upsert] using h
  | e' :: rest, h => by
    by_cases he : e'.1 = k
    · simp only [upsert, if_pos he] at h
      rcases List.mem_cons.mp h with rfl | h'
      · exact Or.inl rfl
      · exact Or.inr (List.mem_cons_of_mem e' h')
    · simp only [upsert, if_neg he] at h
      rcases List.mem_cons.mp h with rfl | h'
      · exact Or.inr (List.mem_cons_self _ _)
      · rcases mem_upsert_elim rest h' with h'' | h''
        · exact Or.inl h''
        · exact Or.inr (List.mem_cons_of_mem e' h'')

theorem mem_updateAt_elim {κ β : Type} [DecidableEq κ] {k : κ} {f : β → β} {e : κ × β} :
    ∀ m : List (κ × β), e ∈ updateAt k f m → e ∈ m ∨ ∃ v, (k, v) ∈ m ∧ e = (k, f v)
  | [], h => by simp [updateAt] at h
  | e' :: rest, h => by
    by_cases he : e'.1 = k
    · simp only [updateAt, if_pos he] at h
      rcases List.mem_cons.mp h with rfl | h'
      · right
        refine ⟨e'.2, ?_, by rw [he]⟩
        exact List.mem_cons.mpr (Or.inl (by rw [← he]))
      · exact Or.inl (List.mem_cons_of_mem e' h')
    · simp only [updateAt, if_neg he] at h
      rcases List.mem_cons.mp h with rfl | h'
      · exact Or.inl (List.mem_cons_self _ _)
      · rcases mem_updateAt_elim rest h' with h'' | ⟨v, hv, rfl⟩
        · exact Or.inl (List.mem_cons_of_mem e' h'')
        · exact Or.inr ⟨v, List.mem_cons_of_mem e' hv, rfl⟩

theorem filter_key_singleton {κ β : Type} [DecidableEq κ] {k : κ} {v : β} :
    ∀ m : List (κ × β), (akeys m).Nodup → alookup k m = some v →
      m.filter (fun e => decide (e.1 = k)) = [(k, v)]
  | [], _, h => by simp [alookup] at h
  | e :: rest, hn, h => by
    by_cases he : e.1 = k
    · simp only [alookup, if_pos he] at h
      have hv : e.2 = v := Option.some.inj h
      have hn' : (e.1 :: akeys rest).Nodup := hn
      have hk : k ∉ akeys rest := by
        have := (List.nodup_cons.mp hn').1
        rwa [he] at this
      have hfil : rest.filter (fun e => decide (e.1 = k)) = [] := by
        rw [List.filter_eq_nil_iff]
        intro z hz
        simp only [decide_eq_true_eq]
        intro hc
        exact hk (List.mem_map.mpr ⟨z, hz, hc⟩)
      rw [List.filter_cons, if_pos (by simp [he]), hfil]
      rw [show e = (k, v) from by rw [← he, ← hv]]
    · have hn' : (e.1 :: akeys rest).Nodup := hn
      have hfil := filter_key_singleton rest (List.nodup_cons.mp hn').2
        (by simpa [alookup, he] using h)
      rw [List.filter_cons, if_neg (by simp [he]), hfil]

-- ─── Merge-engine lemmas ────────────────────────────────────────

theorem oOr_none_right {α : Type} (a : Option α) : oOr a none = a := by
  cases a <;> rfl

theorem oOr_assoc {α : Type} (a b c : Option α) : oOr (oOr a b) c = oOr a (oOr b c) := by
  cases a <;> cases b <;> rfl

theorem lastOpt_append {α : Type} :
    ∀ l₁ l₂ : List α, lastOpt (l₁ ++ l₂) = oOr (lastOpt l₂) (lastOpt l₁)
  | [], l₂ => (oOr_none_right _).symm
  | a :: l₁, l₂ => by
    show oOr (lastOpt (l₁ ++ l₂)) (some a) = oOr (lastOpt l₂) (oOr (lastOpt l₁) (some a))
    rw [lastOpt_append l₁ l₂, oOr_assoc]

theorem lastOpt_isSome_iff {α : Type} : ∀ l : List α, (lastOpt l).isSome ↔ l ≠ []
  | [] => by simp [lastOpt]
  | a :: l => by
    simp only [lastOpt, ne_eq, reduceCtorEq, not_false_eq_true, iff_true]
    cases h : lastOpt l <;> simp [oOr]

theorem lastOpt_mem {α : Type} {a : α} : ∀ l : List α, lastOpt l = some a → a ∈ l
  | [], h => by simp [lastOpt] at h
  | b :: l, h => by
    simp only [lastOpt] at h
    cases hl : lastOpt l with
    | none =>
      rw [hl] at h
      simp only [oOr, Option.some.injEq] at h
      exact List.mem_cons.mpr (Or.inl h.symm)
    | some c =>
      rw [hl] at h
      simp only [oOr, Option.some.injEq] at h
      exact List.mem_cons_of_mem b (lastOpt_mem l (h ▸ hl))

theorem alookup_obsFold (sid : String) (ok : Int × ℚ) :
    ∀ (l : List Observation) (od : List ((Int × ℚ) × Observation)),
      alookup ok (l.foldl (fun od o => upsert (_obs_key (tagObs sid o)) (tagObs sid o) od) od) =
        oOr (lastOpt ((l.map (tagObs sid)).filter (fun o => decide (_obs_key o = ok))))
          (alookup ok od)
  | [], od => rfl
  | o :: l, od => by
    rw [List.foldl_cons, alookup_obsFold sid ok l _, alookup_upsert, List.map_cons,
      List.filter_cons]
    by_cases hk : _obs_key (tagObs sid o) = ok
    · rw [if_pos hk.symm, if_pos (by simpa using hk)]
      cases hF : lastOpt ((l.map (tagObs sid)).filter (fun o => decide (_obs_key o = ok))) <;>
        simp [lastOpt, oOr, hF]
    · rw [if_neg (fun hc => hk hc.symm), if_neg (by simpa using hk)]



theorem alookup_processObs_ne (key sid : String) (k : String) (h : k ≠ key)
    (acc : MState) (o : Observation) :
    alookup k (processObs key sid acc o) = alookup k acc := by
  simp only [processObs]
  rw [alookup_updateAt, if_neg h]

theorem alookup_obsfoldState_ne (key sid : String) (k : String) (h : k ≠ key) :
    ∀ (l : List Observation) (acc : MState),
      alookup k (l.foldl (processObs key sid) acc) = alookup k acc
  | [], acc => rfl
  | o :: l, acc => by
    rw [List.foldl_cons, alookup_obsfoldState_ne key sid k h l _,
      alookup_processObs_ne key sid k h]

theorem alookup_obsfoldState_eq (key sid : String) :
    ∀ (l : List Observation) (acc : MState) (t : LabAnalyte)
      (od : List ((Int × ℚ) × Observation)), alookup key acc = some (t, od) →
      alookup key (l.foldl (processObs key sid) acc) =
        some (t, l.foldl (fun od o => upsert (_obs_key (tagObs sid o)) (tagObs sid o) od) od)
  | [], acc, t, od, h => h
  | o :: l, acc, t, od, h => by
    rw [List.foldl_cons, List.foldl_cons]
    apply alookup_obsfoldState_eq key sid l _ t _
    simp only [processObs]
    rw [alookup_updateAt, if_pos rfl, h]
    rfl

theorem alookupObs_processAnalyte (k : String) (ok : Int × ℚ) (sid : String)
    (acc : MState) (a : LabAnalyte) :
    alookupObs k ok (processAnalyte sid acc a) =
      oOr (lastOpt (blockWriters k ok (sid, a))) (alookupObs k ok acc) := by
  by_cases hk : k = _merge_key a
  · subst hk
    simp only [processAnalyte, blockWriters, eq_self_iff_true, if_true]
    rcases hacc : alookup (_merge_key a) acc with _ | e
    · have h1 : alookup (_merge_key a)
          (upsert (_merge_key a) ({ a with observations := [] },
            ([] : List ((Int × ℚ) × Observation))) acc) =
          some ({ a with observations := [] }, []) := by
        rw [alookup_upsert, if_pos rfl]
      have h2 := alookup_obsfoldState_eq (_merge_key a) sid a.observations _ _ _ h1
      simp only [alookupObs, hacc, h2]
      rw [alookup_obsFold]
      simp [alookup, oOr_none_right]
    · rcases e with ⟨t, od⟩
      have h2 := alookup_obsfoldState_eq (_merge_key a) sid a.observations _ _ _ hacc
      simp only [alookupObs, hacc, h2]
      rw [alookup_obsFold]
  · have hbw : blockWriters k ok (sid, a) = [] := by
      simp only [blockWriters]
      rw [if_neg (fun hc : _merge_key a = k => hk hc.symm)]
    rw [hbw]
    simp only [alookupObs, processAnalyte]
    rw [alookup_obsfoldState_ne _ sid k hk]
    rcases hacc : alookup (_merge_key a) acc with _ | e
    · rw [alookup_upsert, if_neg hk]
      simp [lastOpt, oOr]
    · simp [lastOpt, oOr]



theorem alookupObs_foldBlocks (k : String) (ok : Int × ℚ) :
    ∀ (l : List (String × LabAnalyte)) (acc : MState),
      alookupObs k ok (l.foldl (fun acc x => processAnalyte x.1 acc x.2) acc) =
        oOr (lastOpt (writers k ok l)) (alookupObs k ok acc)
  | [], acc => by simp [writers, lastOpt, oOr]
  | x :: l, acc => by
    rw [List.foldl_cons, alookupObs_foldBlocks k ok l _, alookupObs_processAnalyte]
    have hw : writers k ok (x :: l) = blockWriters k ok x ++ writers k ok l := by
      simp [writers]
    rw [hw, lastOpt_append, oOr_assoc]

theorem alookupObs_mergeState (k : String) (ok : Int × ℚ) (reports : List LabReport) :
    alookupObs k ok (mergeState reports) = lastOpt (writers k ok (flatAnalytes reports)) := by
  rw [mergeState, alookupObs_foldBlocks]
  simp only [alookupObs, alookup]
  rw [oOr_none_right]

theorem GoodState_obsFold (key sid : String) :
    ∀ (l : List Observation) (acc1 : MState), GoodState acc1 →
      GoodState (l.foldl (processObs key sid) acc1)
  | [], acc1, h1 => h1
  | o :: l, acc1, h1 => by
    rw [List.foldl_cons]
    apply GoodState_obsFold key sid l
    constructor
    · rw [processObs, akeys_updateAt]
      exact h1.1
    · intro e he
      rcases mem_updateAt_elim _ he with he' | ⟨v, hv, rfl⟩
      · exact h1.2 e he'
      · rcases v with ⟨t, od⟩
        have hv' := h1.2 _ hv
        refine ⟨hv'.1, ?_, ?_⟩
        · rw [akeys_upsert]
          split
          · exact hv'.2.1
          · rename_i hmem
            exact List.nodup_append.mpr ⟨hv'.2.1, List.nodup_singleton _,
              by simpa using fun hc => hmem hc⟩
        · intro e2 he2
          rcases mem_upsert_elim _ he2 with rfl | he2'
          · exact rfl
          · exact hv'.2.2 e2 he2'

theorem GoodState_processAnalyte (sid : String) (a : LabAnalyte) (acc : MState)
    (h : GoodState acc) : GoodState (processAnalyte sid acc a) := by
  have h1 : GoodState (match alookup (_merge_key a) acc with
      | none => upsert (_merge_key a) ({ a with observations := [] },
          ([] : List ((Int × ℚ) × Observation))) acc
      | some _ => acc) := by
    rcases hacc : alookup (_merge_key a) acc with _ | e
    · constructor
      · rw [akeys_upsert]
        split
        · exact h.1
        · rename_i hmem
          exact List.nodup_append.mpr ⟨h.1, List.nodup_singleton _,
            by simpa using fun hc => hmem hc⟩
      · intro e he
        rcases mem_upsert_elim acc he with rfl | he2
        · exact ⟨rfl, List.nodup_nil, by simp⟩
        · exact h.2 e he2
    · exact h
  exact GoodState_obsFold (_merge_key a) sid a.observations _ h1

theorem GoodState_mergeState (reports : List LabReport) : GoodState (mergeState reports) := by
  rw [mergeState]
  generalize flatAnalytes reports = l
  suffices h : ∀ (l : List (String × LabAnalyte)) (acc : MState), GoodState acc →
      GoodState (l.foldl (fun acc x => processAnalyte x.1 acc x.2) acc) by
    exact h l [] ⟨List.nodup_nil, by simp⟩
  intro l
  induction l with
  | nil => intro acc h; exact h
  | cons x l ih =>
    intro acc h
    exact ih _ (GoodState_processAnalyte x.1 x.2 acc h)



theorem foldl_flatMap {α β γ : Type} (g : β → List γ) (f : α → γ → α) :
    ∀ (l : List β) (init : α),
      (l.flatMap g).foldl f init = l.foldl (fun acc b => (g b).foldl f acc) init
  | [], _ => rfl
  | b :: l, init => by
    rw [List.flatMap_cons, List.foldl_append, List.foldl_cons, foldl_flatMap g f l]

theorem merge_reports_eq (reports : List LabReport) :
    merge_reports reports = (mergeState reports).map finalizeEntry := by
  simp only [merge_reports, mergeState, flatAnalytes]
  congr 1
  rw [foldl_flatMap]
  congr 1
  funext acc r
  rw [foldl_flatMap]
  congr 1
  funext acc2 p
  rw [List.foldl_map]

theorem mem_statePairs_iff (s : MState) (hg : GoodState s) (k : String) (ok : Int × ℚ) :
    (k, ok) ∈ statePairs s ↔ (alookupObs k ok s).isSome := by
  constructor
  · intro hm
    rcases List.mem_flatMap.mp hm with ⟨e, he, hmem⟩
    rcases List.mem_map.mp hmem with ⟨ok', hok', heq⟩
    have h1 : e.1 = k := congrArg Prod.fst heq
    have h2 : ok' = ok := congrArg Prod.snd heq
    have halk : alookup k s = some e.2 :=
      alookup_of_mem_nodup s hg.1 (by rw [← h1]; exact he)
    simp only [alookupObs, halk]
    rw [← mem_akeys_iff_isSome]
    rw [← h2]
    exact hok'
  · intro hs
    rcases halk : alookup k s with _ | e
    · simp [alookupObs, halk] at hs
    · simp only [alookupObs, halk] at hs
      have hok : ok ∈ akeys e.2 := (mem_akeys_iff_isSome ok e.2).mpr hs
      exact List.mem_flatMap.mpr ⟨(k, e), mem_of_alookup s halk,
        List.mem_map.mpr ⟨ok, hok, rfl⟩⟩

theorem statePairs_nodup : ∀ s : MState, GoodState s → (statePairs s).Nodup
  | [], _ => by simp [statePairs]
  | e :: rest, hg => by
    have hn : (e.1 :: akeys rest).Nodup := hg.1
    have hge := hg.2 e (List.mem_cons_self e rest)
    have hgrest : GoodState rest :=
      ⟨(List.nodup_cons.mp hn).2, fun e' he' => hg.2 e' (List.mem_cons_of_mem e he')⟩
    have hsp : statePairs (e :: rest) =
        (akeys e.2.2).map (fun ok => (e.1, ok)) ++ statePairs rest := by
      simp [statePairs]
    rw [hsp, List.nodup_append]
    refine ⟨?_, statePairs_nodup rest hgrest, ?_⟩
    · exact hge.2.1.map (fun a b hab => congrArg Prod.snd hab)
    · intro x hx1 hx2
      rcases List.mem_map.mp hx1 with ⟨ok, _, rfl⟩
      rcases List.mem_flatMap.mp hx2 with ⟨e', he', hmem'⟩
      rcases List.mem_map.mp hmem' with ⟨ok', _, heq⟩
      injection heq with h1 h2
      exact (List.nodup_cons.mp hn).1
        (h1 ▸ List.mem_map.mpr ⟨e', he', rfl⟩)

theorem totalObs_eq_statePairs_length :
    ∀ s : MState, totalObservations (s.map finalizeEntry) = (statePairs s).length
  | [] => rfl
  | e :: rest => by
    have ih := totalObs_eq_statePairs_length rest
    simp only [totalObservations, statePairs, List.map_cons, List.flatMap_cons,
      List.sum_cons, List.length_append, List.length_map] at ih ⊢
    rw [← ih]
    congr 1
    simp only [finalizeEntry]
    rw [(sortOn_perm obsDatePre (e.2.2.map Prod.snd)).length_eq, List.length_map, akeys,
      List.length_map]

theorem countP_key_nodup {κ : Type} [DecidableEq κ] {k : κ} :
    ∀ l : List κ, l.Nodup → k ∈ l → l.countP (fun x => decide (x = k)) = 1
  | [], _, hm => by simp at hm
  | x :: l, hn, hm => by
    rcases List.mem_cons.mp hm with rfl | hm'
    · have hnotin : k ∉ l := (List.nodup_cons.mp hn).1
      have h0 : l.countP (fun y => decide (y = k)) = 0 := by
        rw [List.countP_eq_zero]
        intro a ha
        simp only [decide_eq_true_eq]
        intro hc
        exact hnotin (hc ▸ ha)
      simp [List.countP_cons, h0]
    · have hx : ¬ (x = k) := fun hc => (List.nodup_cons.mp hn).1 (hc ▸ hm')
      have ih := countP_key_nodup l (List.nodup_cons.mp hn).2 hm'
      simp [List.countP_cons, ih, hx]



/-- C5. Merge is idempotent with respect to duplication of the input: for
every report list rs, merging rs ++ rs yields the same total observation
count (summed over all merged analytes) as merging rs once — each (merge
key, observation key) pair is stored at most once, so replaying the same
reports only overwrites existing entries. -/
theorem merge_idempotent_doubling (rs : List LabReport) :
    totalObservations (merge_reports (rs ++ rs)) = totalObservations (merge_reports rs) := by
  rw [merge_reports_eq, merge_reports_eq, totalObs_eq_statePairs_length,
    totalObs_eq_statePairs_length]
  apply List.Perm.length_eq
  have h1 := GoodState_mergeState (rs ++ rs)
  have h2 := GoodState_mergeState rs
  rw [List.perm_ext_iff_of_nodup (statePairs_nodup _ h1) (statePairs_nodup _ h2)]
  rintro ⟨k, ok⟩
  rw [mem_statePairs_iff _ h1, mem_statePairs_iff _ h2, alookupObs_mergeState,
    alookupObs_mergeState]
  have hfa : flatAnalytes (rs ++ rs) = flatAnalytes rs ++ flatAnalytes rs := by
    simp [flatAnalytes]
  have hw : writers k ok (flatAnalytes rs ++ flatAnalytes rs) =
      writers k ok (flatAnalytes rs) ++ writers k ok (flatAnalytes rs) := by
    simp [writers]
  rw [hfa, hw, lastOpt_append]
  cases h : lastOpt (writers k ok (flatAnalytes rs)) <;> simp [oOr]

theorem blockWriters_mem {k : String} {ok : Int × ℚ} {x : String × LabAnalyte}
    {w : Observation} (h : w ∈ blockWriters k ok x) :
    w.source_image_id = x.1 ∧ _obs_key w = ok := by
  simp only [blockWriters] at h
  split at h
  · rcases List.mem_filter.mp h with ⟨hmem, hdec⟩
    rcases List.mem_map.mp hmem with ⟨o, _, rfl⟩
    exact ⟨rfl, by simpa using hdec⟩
  · simp at h

theorem mem_flatAnalytes {r : LabReport} {rs : List LabReport} (hr : r ∈ rs)
    {a : LabAnalyte} (ha : a ∈ reportAnalytes r) :
    (r.source_image_id, a) ∈ flatAnalytes rs := by
  rcases List.mem_flatMap.mp ha with ⟨p, hp, hap⟩
  exact List.mem_flatMap.mpr ⟨r, hr,
    List.mem_flatMap.mpr ⟨p, hp, List.mem_map.mpr ⟨a, hap, rfl⟩⟩⟩

theorem flatAnalytes_single_sid {r : LabReport} {x : String × LabAnalyte}
    (h : x ∈ flatAnalytes [r]) : x.1 = r.source_image_id := by
  rcases List.mem_flatMap.mp h with ⟨r', hr', hx⟩
  rcases List.mem_singleton.mp hr' with rfl
  rcases List.mem_flatMap.mp hx with ⟨p, _, hxp⟩
  rcases List.mem_map.mp hxp with ⟨a, _, rfl⟩
  rfl

theorem merge_key_finalize (e : String × MEntry) :
    _merge_key (finalizeEntry e) = _merge_key e.2.1 := rfl

theorem merge_key_template (a : LabAnalyte) :
    _merge_key { a with observations := ([] : List Observation) } = _merge_key a := rfl



/-- C4. When two reports each contain an analyte with the same composite
merge key and observations sharing the same (date, value) pair, the merged
timeline has exactly one analyte under that key, that analyte contains
exactly one observation with that (date, value), and its `source_image_id`
is the id of the report appearing later in the input list
("last-report-wins"). -/
theorem merge_last_writer_wins (r1 r2 : LabReport) (a1 a2 : LabAnalyte) (o1 o2 : Observation)
    (ha1 : a1 ∈ reportAnalytes r1) (ha2 : a2 ∈ reportAnalytes r2)
    (hk : _merge_key a1 = _merge_key a2)
    (ho1 : o1 ∈ a1.observations) (ho2 : o2 ∈ a2.observations)
    (hoo : _obs_key o1 = _obs_key o2) :
    ∃ A, (merge_reports [r1, r2]).filter
        (fun x => decide (_merge_key x = _merge_key a2)) = [A] ∧
      A.observations.countP (fun o => decide (_obs_key o = _obs_key o2)) = 1 ∧
      ∀ o ∈ A.observations, _obs_key o = _obs_key o2 →
        o.source_image_id = r2.source_image_id := by
  have hsplit : flatAnalytes [r1, r2] = flatAnalytes [r1] ++ flatAnalytes [r2] := by
    simp [flatAnalytes]
  have hxmem : (r2.source_image_id, a2) ∈ flatAnalytes [r2] :=
    mem_flatAnalytes (List.mem_singleton.mpr rfl) ha2
  have hwmem : tagObs r2.source_image_id o2 ∈
      blockWriters (_merge_key a2) (_obs_key o2) (r2.source_image_id, a2) := by
    simp only [blockWriters, eq_self_iff_true, if_true]
    exact List.mem_filter.mpr ⟨List.mem_map.mpr ⟨o2, ho2, rfl⟩, by simp [_obs_key, tagObs]⟩
  have hW2 : writers (_merge_key a2) (_obs_key o2) (flatAnalytes [r2]) ≠ [] := by
    intro hc
    have hmm : tagObs r2.source_image_id o2 ∈
        writers (_merge_key a2) (_obs_key o2) (flatAnalytes [r2]) :=
      List.mem_flatMap.mpr ⟨_, hxmem, hwmem⟩
    rw [hc] at hmm
    simp at hmm
  obtain ⟨w, hw⟩ : ∃ w, lastOpt (writers (_merge_key a2) (_obs_key o2)
      (flatAnalytes [r2])) = some w := by
    rcases hcase : lastOpt (writers (_merge_key a2) (_obs_key o2) (flatAnalytes [r2])) with _ | w
    · exact absurd ((lastOpt_isSome_iff _).mpr hW2) (by simp [hcase])
    · exact ⟨w, rfl⟩
  have hlast : alookupObs (_merge_key a2) (_obs_key o2) (mergeState [r1, r2]) = some w := by
    rw [alookupObs_mergeState, hsplit]
    have hww : writers (_merge_key a2) (_obs_key o2) (flatAnalytes [r1] ++ flatAnalytes [r2]) =
        writers (_merge_key a2) (_obs_key o2) (flatAnalytes [r1]) ++
          writers (_merge_key a2) (_obs_key o2) (flatAnalytes [r2]) := by
      simp [writers]
    rw [hww, lastOpt_append, hw]
    rfl
  obtain ⟨x, hxfa, hwx⟩ := List.mem_flatMap.mp (lastOpt_mem _ hw)
  have hwsid : w.source_image_id = r2.source_image_id := by
    rw [(blockWriters_mem hwx).1, flatAnalytes_single_sid hxfa]
  have hg := GoodState_mergeState [r1, r2]
  obtain ⟨e, halk, hodw⟩ : ∃ e, alookup (_merge_key a2) (mergeState [r1, r2]) = some e ∧
      alookup (_obs_key o2) e.2 = some w := by
    rcases hcase : alookup (_merge_key a2) (mergeState [r1, r2]) with _ | e
    · rw [alookupObs, hcase] at hlast
      exact absurd hlast (by simp)
    · refine ⟨e, rfl, ?_⟩
      rw [alookupObs, hcase] at hlast
      exact hlast
  have hmem_e : ((_merge_key a2), e) ∈ mergeState [r1, r2] := mem_of_alookup _ halk
  have hgi := (hg.2 _ hmem_e).2
  refine ⟨finalizeEntry (_merge_key a2, e), ?_, ?_, ?_⟩
  · rw [merge_reports_eq, List.filter_map]
    have hcong : (mergeState [r1, r2]).filter
        ((fun x => decide (_merge_key x = _merge_key a2)) ∘ finalizeEntry) =
        (mergeState [r1, r2]).filter (fun e' => decide (e'.1 = _merge_key a2)) := by
      apply List.filter_congr
      intro e' he'
      simp only [Function.comp_apply, merge_key_finalize, (hg.2 e' he').1]
    rw [hcong, filter_key_singleton _ hg.1 halk, List.map_singleton]
  · show (sortOn obsDatePre (e.2.map Prod.snd)).countP
        (fun o => decide (_obs_key o = _obs_key o2)) = 1
    rw [(sortOn_perm obsDatePre (e.2.map Prod.snd)).countP_eq, List.countP_map]
    have hcong : e.2.countP ((fun o => decide (_obs_key o = _obs_key o2)) ∘ Prod.snd) =
        e.2.countP (fun e' => decide (e'.1 = _obs_key o2)) := by
      apply List.countP_congr
      intro e' he'
      simp only [Function.comp_apply, hgi.2 e' he']
    rw [hcong]
    have hmap : e.2.countP (fun e' => decide (e'.1 = _obs_key o2)) =
        (akeys e.2).countP (fun kk => decide (kk = _obs_key o2)) := by
      rw [akeys, List.countP_map]
      rfl
    rw [hmap]
    apply countP_key_nodup _ hgi.1
    rw [mem_akeys_iff_isSome, hodw]
    rfl
  · intro o hoA hokA
    have homem : o ∈ e.2.map Prod.snd := (sortOn_perm _ _).mem_iff.mp hoA
    rcases List.mem_map.mp homem with ⟨e', he', rfl⟩
    have hkey : e'.1 = _obs_key o2 := by
      rw [← hgi.2 e' he', hokA]
    have halk2 : alookup (_obs_key o2) e.2 = some e'.2 :=
      alookup_of_mem_nodup e.2 hgi.1 (by rw [← hkey]; exact he')
    have hew : e'.2 = w := Option.some.inj (halk2.symm.trans hodw)
    rw [hew, hwsid]


/-- C4 (witness). Two concrete reports ("img1" then "img2") carrying the
same sodium analyte and the same (date, value) observation merge to a
single observation tagged "img2". -/
theorem merge_last_writer_wins_witness :
    ∃ A, (merge_reports [mergeReportW1, mergeReportW2]).filter
        (fun x => decide (_merge_key x = _merge_key mergeAnalyteW)) = [A] ∧
      A.observations.countP (fun o => decide (_obs_key o = _obs_key mergeObsW)) = 1 ∧
      ∀ o ∈ A.observations, _obs_key o = _obs_key mergeObsW →
        o.source_image_id = mergeReportW2.source_image_id :=
  merge_last_writer_wins mergeReportW1 mergeReportW2 mergeAnalyteW mergeAnalyteW
    mergeObsW mergeObsW
    (by simp [reportAnalytes, mergeReportW1])
    (by simp [reportAnalytes, mergeReportW2])
    rfl
    (by simp [mergeAnalyteW])
    (by simp [mergeAnalyteW])
    rfl
